import Mathlib

/-!
Shallow embedding of the VegaFusion core (vegafusion-core) planning and
task-graph subsystem, together with proofs of the frozen claims about it.

Conventions used throughout:
* Rust `Vec<u32>` scopes are modelled as `List Nat`; serialized payloads
  (protobuf bytes, Arrow buffers) as `List Nat` of bytes.
* `Result<T, VegaFusionError>` is modelled as `Except Err T`; the error kind
  (Parse/Internal/...) is tracked so that "fails with an InternalError" is a
  statable property.
* The deterministic hasher (`deterministic_hash::DeterministicHasher` over
  `DefaultHasher`) is modelled as a free algebra over the sequence of hashed
  items (`Fp` below): hashing is collision-free in the model, which is the
  standard abstraction of a 64-bit fingerprint.
* `TaskScope::resolve_scope` lives in a file that is not part of the sources
  at hand (only its callers are); the task scope is therefore abstracted as a
  resolver function `TaskScope := Variable → List Nat → Except Err Resolved`,
  and all graph-level claims are proved for every resolver.
-/

namespace VegaFusion

/-! ### Errors (error.rs)

`VegaFusionError` variants carry a message and a context stack; only the
variant (the "kind") and message matter for the claims. -/

inductive ErrKind where
  | parseErr
  | compilationErr
  | internalErr
  | externalErr
  | specificationErr
deriving DecidableEq, Repr

structure Err where
  kind : ErrKind
  msg : String
deriving DecidableEq, Repr

/-- `VegaFusionError::internal` -/
def Err.internal (msg : String) : Err := ⟨ErrKind.internalErr, msg⟩

instance {ε α : Type _} [DecidableEq ε] [DecidableEq α] :
    DecidableEq (Except ε α) := fun a b =>
  match a, b with
  | Except.error e1, Except.error e2 =>
    if h : e1 = e2 then Decidable.isTrue (by rw [h])
    else Decidable.isFalse (by intro hc; injection hc; contradiction)
  | Except.ok v1, Except.ok v2 =>
    if h : v1 = v2 then Decidable.isTrue (by rw [h])
    else Decidable.isFalse (by intro hc; injection hc; contradiction)
  | Except.error _, Except.ok _ => Decidable.isFalse (by intro hc; cases hc)
  | Except.ok _, Except.error _ => Decidable.isFalse (by intro hc; cases hc)

/-! ### Variables (proto tasks::Variable, variable/mod.rs) -/

inductive VariableNamespace where
  | signal
  | data
  | scale
deriving DecidableEq, Repr

structure Variable where
  ns : VariableNamespace
  name : String
deriving DecidableEq, Repr

/-- `ScopedVariable = (Variable, Vec<u32>)` (task_graph/graph.rs). -/
abbrev ScopedVar := Variable × List Nat

/-! ### Column usage (expression/column_usage.rs) -/

inductive ColumnUsage where
  | Unknown : ColumnUsage
  | Known : Finset String → ColumnUsage
deriving DecidableEq

/-- `ColumnUsage::union`: if both are Known take the union of the known
columns; if either is Unknown the union is Unknown. -/
def ColumnUsage.union : ColumnUsage → ColumnUsage → ColumnUsage
  | ColumnUsage.Known a, ColumnUsage.Known b => ColumnUsage.Known (a ∪ b)
  | _, _ => ColumnUsage.Unknown

/-- `ColumnUsage::empty` -/
def ColumnUsage.empty : ColumnUsage := ColumnUsage.Known ∅

/-! ### Aggregate transform spec (spec/transform/aggregate.rs) -/

/-- `spec::values::Field`; its structure is irrelevant to the claims. -/
structure Field where
  name : String
deriving DecidableEq, Repr

inductive AggregateOpSpec where
  | count | valid | missing | distinct | sum | product | mean | average
  | variance | variancep | stdev | stdevp | stderr | median | q1 | q3
  | ci0 | ci1 | min | max | argmin | argmax | values
deriving DecidableEq, Repr

structure AggregateTransformSpec where
  groupby : List Field
  fields : Option (List (Option Field))
  ops : Option (List AggregateOpSpec)
  as_ : Option (List (Option String))
  cross : Option Bool
  drop : Option Bool
  key : Option Field
deriving DecidableEq, Repr

/-- The `matches!` test inside `AggregateTransformSpec::supported`. -/
def AggregateOpSpec.supportedOp : AggregateOpSpec → Bool
  | AggregateOpSpec.count | AggregateOpSpec.valid | AggregateOpSpec.missing
  | AggregateOpSpec.distinct | AggregateOpSpec.sum | AggregateOpSpec.mean
  | AggregateOpSpec.average | AggregateOpSpec.min | AggregateOpSpec.max
  | AggregateOpSpec.variance | AggregateOpSpec.variancep
  | AggregateOpSpec.stdev | AggregateOpSpec.stdevp => true
  | _ => false

/-- `AggregateTransformSpec::supported`: ops default to `[Count]`; returns
false on any unsupported op, on `cross == Some(true)` and on
`drop == Some(false)`. -/
def AggregateTransformSpec.supported (s : AggregateTransformSpec) : Bool :=
  let ops := s.ops.getD [AggregateOpSpec.count]
  if ops.any (fun op => !op.supportedOp) then false
  else if s.cross = some true then false
  else if s.drop = some false then false
  else true

/-! ### Tasks (proto tasks::Task, task_graph/task.rs)

Serialized payloads (Arrow/protobuf bytes) are modelled as lists of bytes;
protobuf `Option` wrappers that the accessors unconditionally unwrap are
dropped from the model. -/

/-- `InputVariable` (task_graph/task.rs). -/
structure InputVariable where
  var : Variable
  propagate : Bool
deriving DecidableEq, Repr

/-- The `data` payload of a proto `TaskValue`: either a serialized scalar or
a serialized table.  The runtime `TaskValue` and the proto `TaskValue`
round-trip through `try_from`, so both are modelled by this type and the
conversion by the identity. -/
inductive TaskValueData where
  | scalar (bytes : List Nat)
  | table (bytes : List Nat)
deriving DecidableEq, Repr

abbrev TaskValue := TaskValueData
abbrev ProtoTaskValue := TaskValueData

/-- The string hashed by `init_identity_fingerprints` to distinguish a
Scalar payload from a Table payload. -/
def TaskValueData.kindTag : TaskValueData → String
  | TaskValueData.scalar _ => "scalar"
  | TaskValueData.table _ => "data"

/-- Common shape of the non-Value task kinds (`DataUrlTask`,
`DataValuesTask`, `DataSourceTask`).  Their `TaskDependencies`
implementations live outside the sources at hand, so the input/output
variable lists are carried as data; `payload` stands for the remaining
serialized fields (url, format, pipeline, ...). -/
structure DataTaskSpec where
  input_vars : List InputVariable
  output_vars : List Variable
  payload : List Nat
deriving DecidableEq, Repr

inductive TaskKind where
  | value (v : ProtoTaskValue)
  | dataUrl (t : DataTaskSpec)
  | dataValues (t : DataTaskSpec)
  | dataSource (t : DataTaskSpec)
deriving DecidableEq, Repr

/-- proto `Task`; `variable` is a Lean keyword, so the field is `var`. -/
structure Task where
  var : Variable
  scope : List Nat
  task_kind : TaskKind
deriving DecidableEq, Repr

/-- `Task::input_vars`: a Value task has none; other kinds delegate. -/
def Task.input_vars (t : Task) : List InputVariable :=
  match t.task_kind with
  | TaskKind.value _ => []
  | TaskKind.dataUrl d => d.input_vars
  | TaskKind.dataValues d => d.input_vars
  | TaskKind.dataSource d => d.input_vars

/-- `Task::output_vars`: a Value task has none; other kinds delegate. -/
def Task.output_vars (t : Task) : List Variable :=
  match t.task_kind with
  | TaskKind.value _ => []
  | TaskKind.dataUrl d => d.output_vars
  | TaskKind.dataValues d => d.output_vars
  | TaskKind.dataSource d => d.output_vars

/-- Result of `TaskScope::resolve_scope`. -/
structure Resolved where
  var : Variable
  scope : List Nat
  output_var : Option Variable
deriving DecidableEq, Repr

/-- `TaskScope` abstracted by its only used operation, `resolve_scope`;
the implementation is not among the sources at hand, so graph claims are
proved for an arbitrary resolver. -/
abbrev TaskScope := Variable → List Nat → Except Err Resolved

/-! ### Transform columns (spec/transform/mod.rs contract) -/

abbrev VlSelectionFields := List (String × List String)

/-- `DatasetsColumnUsage` (column usage per scoped dataset variable). -/
structure DatasetsColumnUsage where
  usages : List (ScopedVar × ColumnUsage)

/-- `TransformColumns` (spec/transform): PassThrough, Overwrite or Unknown. -/
inductive TransformColumns where
  | passThrough (usage : DatasetsColumnUsage) (produced : ColumnUsage)
  | overwrite (usage : DatasetsColumnUsage) (produced : ColumnUsage)
  | unknownCols

/-- `AggregateTransformSpec::transform_columns`.  The `Some(datum_var)`
branch of the source computes `ops`/`as_` and then ends in an unconditional
`todo!()` (a panic), modelled here as `none`; the `None` branch returns
`TransformColumns::Unknown`. -/
def AggregateTransformSpec.transform_columns (_s : AggregateTransformSpec)
    (datum_var : Option ScopedVar) (_usage_scope : List Nat)
    (_task_scope : TaskScope) (_vl_selection_fields : VlSelectionFields) :
    Option TransformColumns :=
  match datum_var with
  | some _ => none
  | none => some TransformColumns.unknownCols

/-! ### Watch plans (planning/watch.rs) -/

/-- `CommPlan` (planning/stitch.rs): the two boundary variable lists. -/
structure CommPlan where
  server_to_client : List ScopedVar
  client_to_server : List ScopedVar

inductive WatchNamespace where
  | signal
  | data
deriving DecidableEq, Repr

/-- `WatchNamespace::try_from(VariableNamespace)`: Signal and Data are
admitted; the catch-all arm (Scale) is an internal error. -/
def WatchNamespace.tryFromNamespace :
    VariableNamespace → Except Err WatchNamespace
  | VariableNamespace.signal => Except.ok WatchNamespace.signal
  | VariableNamespace.data => Except.ok WatchNamespace.data
  | _ => Except.error (Err.internal "Scale namespace not supported")

structure Watch where
  ns : WatchNamespace
  name : String
  scope : List Nat
deriving DecidableEq, Repr

/-- `Watch::try_from(ScopedVariable)`. -/
def Watch.tryFrom (sv : ScopedVar) : Except Err Watch :=
  match WatchNamespace.tryFromNamespace sv.1.ns with
  | Except.error e => Except.error e
  | Except.ok n => Except.ok ⟨n, sv.1.name, sv.2⟩

def WatchNamespace.toNat : WatchNamespace → Nat
  | WatchNamespace.signal => 0
  | WatchNamespace.data => 1

/-- The derived `Ord` on `Watch`: lexicographic on (namespace, name, scope),
with `Signal < Data`, byte-lexicographic strings and lexicographic scope
vectors. -/
def Watch.key (w : Watch) : ℕ ×ₗ (String ×ₗ List ℕ) :=
  toLex (w.ns.toNat, toLex (w.name, w.scope))

def Watch.le (a b : Watch) : Prop := a.key ≤ b.key

instance : DecidableRel Watch.le := fun a b =>
  inferInstanceAs (Decidable (a.key ≤ b.key))

instance : IsTotal Watch Watch.le :=
  ⟨fun a b => le_total a.key b.key⟩

instance : IsTrans Watch Watch.le :=
  ⟨fun _ _ _ hab hbc => le_trans hab hbc⟩

structure WatchPlan where
  server_to_client : List Watch
  client_to_server : List Watch
deriving DecidableEq, Repr

/-- The elementwise `Watch::try_from(...).unwrap()` over one list; the
panic of `unwrap` on a Scale-namespace variable is modelled as `none`. -/
def watchListOf : List ScopedVar → Option (List Watch)
  | [] => some []
  | sv :: rest => do
    let w ← (Watch.tryFrom sv).toOption
    let ws ← watchListOf rest
    pure (w :: ws)

/-- `WatchPlan::from(CommPlan)`: convert both lists (unwrapping each
element) and sort each with the derived `Ord`. -/
def WatchPlan.fromCommPlan (p : CommPlan) : Option WatchPlan := do
  let s ← watchListOf p.server_to_client
  let c ← watchListOf p.client_to_server
  pure ⟨List.insertionSort Watch.le s, List.insertionSort Watch.le c⟩

/-- A Scale-namespace scoped variable, used as concrete input. -/
def scaleScopedVar : ScopedVar := (⟨VariableNamespace.scale, "s"⟩, [])

/-- Two Signal-namespace scoped variables in reverse name order. -/
def sigVarB : ScopedVar := (⟨VariableNamespace.signal, "b"⟩, [])

def sigVarA : ScopedVar := (⟨VariableNamespace.signal, "a"⟩, [])

/-! ### Fingerprints (task_graph/graph.rs)

The deterministic hasher is modelled as a free algebra: each `Fp` value
records the exact sequence of items fed to the hasher, so two fingerprints
are equal exactly when the same items were hashed in the same order (a
collision-free abstraction of the 64-bit hash).  `Fp.empty` doubles as the
`0` initial fingerprint of a freshly constructed `TaskNode`; every finished
hash contains at least one item and is therefore distinct from it. -/

inductive Fp where
  | empty
  | hstr (h : Fp) (s : String)
  | hvar (h : Fp) (v : Variable)
  | hscope (h : Fp) (s : List Nat)
  | htask (h : Fp) (t : Task)
  | hfp (h : Fp) (f : Fp)
deriving DecidableEq, Repr

/-! ### Task graph nodes (proto tasks::TaskNode, task_graph/graph.rs) -/

structure IncomingEdge where
  source : Nat
  output : Option Nat
deriving DecidableEq, Repr

structure OutgoingEdge where
  target : Nat
  propagate : Bool
deriving DecidableEq, Repr

structure TaskNode where
  task : Task
  incoming : List IncomingEdge
  outgoing : List OutgoingEdge
  id_fingerprint : Fp
  state_fingerprint : Fp
deriving DecidableEq, Repr

structure TaskGraph where
  nodes : List TaskNode
deriving DecidableEq, Repr

structure NodeValueIndex where
  node_index : Nat
  output_index : Option Nat
deriving DecidableEq, Repr

/-- Placeholder task for unreachable lookups. -/
def defaultTask : Task :=
  ⟨⟨VariableNamespace.signal, ""⟩, [],
    TaskKind.value (TaskValueData.scalar [])⟩

/-- Placeholder node: stands in for the `.unwrap()` panic on an edge
endpoint that is out of range, which is unreachable on graphs satisfying
the toposort invariant that `TaskGraph::new` establishes. -/
def defaultTaskNode : TaskNode :=
  ⟨defaultTask, [], [], Fp.empty, Fp.empty⟩

/-- `TaskGraph::node(i)`. -/
def TaskGraph.node (g : TaskGraph) (i : Nat) : Except Err TaskNode :=
  match g.nodes[i]? with
  | some n => Except.ok n
  | none => Except.error (Err.internal s!"Node index {i} out of bounds")

/-- `TaskGraph::parent_indices(i)`. -/
def TaskGraph.parent_indices (g : TaskGraph) (i : Nat) :
    Except Err (List Nat) :=
  match g.nodes[i]? with
  | some n => Except.ok (n.incoming.map (fun e => e.source))
  | none => Except.error (Err.internal s!"Node index {i} out of bounds")

/-- `TaskGraph::parent_nodes(i)`. -/
def TaskGraph.parent_nodes (g : TaskGraph) (i : Nat) :
    Except Err (List TaskNode) :=
  match g.nodes[i]? with
  | some n =>
    Except.ok (n.incoming.map (fun e => g.nodes.getD e.source defaultTaskNode))
  | none => Except.error (Err.internal s!"Node index {i} out of bounds")

/-- `TaskGraph::child_indices(i)`. -/
def TaskGraph.child_indices (g : TaskGraph) (i : Nat) :
    Except Err (List Nat) :=
  match g.nodes[i]? with
  | some n => Except.ok (n.outgoing.map (fun e => e.target))
  | none => Except.error (Err.internal s!"Node index {i} out of bounds")

/-- `TaskGraph::child_nodes(i)`. -/
def TaskGraph.child_nodes (g : TaskGraph) (i : Nat) :
    Except Err (List TaskNode) :=
  match g.nodes[i]? with
  | some n =>
    Except.ok (n.outgoing.map (fun e => g.nodes.getD e.target defaultTaskNode))
  | none => Except.error (Err.internal s!"Node index {i} out of bounds")

/-- One node's identity fingerprint, given the fingerprints of the nodes
before it (`init_identity_fingerprints` loop body): a Value task hashes only
its variable, scope and scalar-vs-table tag; any other task hashes its
parents' identity fingerprints followed by its own serialized form. -/
def idFpOf (fps : List Fp) (node : TaskNode) : Fp :=
  match node.task.task_kind with
  | TaskKind.value v =>
    ((Fp.empty.hvar node.task.var).hscope node.task.scope).hstr v.kindTag
  | _ =>
    ((node.incoming.map (fun e => fps.getD e.source Fp.empty)).foldl
        Fp.hfp Fp.empty).htask node.task

/-- One node's state fingerprint, given the state fingerprints of the nodes
before it (`update_state_fingerprints` loop body): a Value task hashes its
full serialized form (value included); any other task hashes its parents'
state fingerprints followed by its own identity fingerprint. -/
def stateFpOf (fps : List Fp) (node : TaskNode) : Fp :=
  match node.task.task_kind with
  | TaskKind.value _ => Fp.empty.htask node.task
  | _ =>
    ((node.incoming.map (fun e => fps.getD e.source Fp.empty)).foldl
        Fp.hfp Fp.empty).hfp node.id_fingerprint

/-- The fingerprint vector built left to right, each entry computed from the
entries before it. -/
def accumFpsAux (f : List Fp → TaskNode → Fp) :
    List Fp → List TaskNode → List Fp
  | acc, [] => acc
  | acc, n :: ns => accumFpsAux f (acc ++ [f acc n]) ns

def accumFps (f : List Fp → TaskNode → Fp) (nodes : List TaskNode) :
    List Fp :=
  accumFpsAux f [] nodes

def computeIdFps : List TaskNode → List Fp := accumFps idFpOf

def computeStateFps : List TaskNode → List Fp := accumFps stateFpOf

/-- `TaskGraph::init_identity_fingerprints`. -/
def TaskGraph.init_identity_fingerprints (g : TaskGraph) : TaskGraph :=
  ⟨(g.nodes.zip (computeIdFps g.nodes)).map
    (fun p => { p.1 with id_fingerprint := p.2 })⟩

/-- `TaskGraph::update_state_fingerprints`: recompute all state
fingerprints, store them, and return the indices whose fingerprint changed.
(The `Result` in the source signature is always `Ok`: the enumerate indices
passed to `parent_indices` are in range.) -/
def TaskGraph.update_state_fingerprints (g : TaskGraph) :
    List Nat × TaskGraph :=
  let fps := computeStateFps g.nodes
  (((g.nodes.zip fps).enum.filterMap (fun p =>
      if p.2.1.state_fingerprint ≠ p.2.2 then some p.1 else none)),
   ⟨(g.nodes.zip fps).map (fun p => { p.1 with state_fingerprint := p.2 })⟩)

/-- `TaskGraph::update_value`: replace a Value node's task (keeping
variable and scope), refresh state fingerprints, and return one
`NodeValueIndex` per changed node plus one per output variable of that
node.  Errors (out-of-range index, non-Value task) are returned before any
mutation, so the graph component is the input graph in those cases. -/
def TaskGraph.update_value (g : TaskGraph) (node_index : Nat)
    (value : TaskValue) : Except Err (List NodeValueIndex) × TaskGraph :=
  match g.nodes[node_index]? with
  | none => (Except.error (Err.internal "Missing node"), g)
  | some node =>
    match node.task.task_kind with
    | TaskKind.value _ =>
      let newTask : Task := ⟨node.task.var, node.task.scope,
        TaskKind.value value⟩
      let g1 : TaskGraph := ⟨g.nodes.set node_index
        { node with task := newTask }⟩
      let r := g1.update_state_fingerprints
      let nvis := r.1.flatMap (fun i =>
        ⟨i, none⟩ :: (List.range
            ((r.2.nodes.getD i defaultTaskNode).task.output_vars.length)).map
          (fun j => ⟨i, some j⟩))
      (Except.ok nvis, r.2)
    | _ =>
      (Except.error (Err.internal "Task with index {} is not a Value"), g)

/-- Decidable form of the toposort invariant: every incoming edge source is
strictly below its node's index. -/
def TaskGraph.wellOrdered (g : TaskGraph) : Bool :=
  g.nodes.enum.all (fun p => p.2.incoming.all (fun e => decide (e.source < p.1)))

/-- The stored state fingerprints agree with a fresh recomputation; holds
after `TaskGraph::new` and after every `update_state_fingerprints`. -/
def TaskGraph.stateConsistent (g : TaskGraph) : Bool :=
  decide (g.nodes.map (fun n => n.state_fingerprint) = computeStateFps g.nodes)

/-- One dependency step: `b` has an incoming edge from `a`. -/
def edgeStepN (nodes : List TaskNode) (a b : Nat) : Prop :=
  ∃ n, nodes[b]? = some n ∧ ∃ e ∈ n.incoming, e.source = a

/-- `b` is a transitive descendant of `a` through incoming edges. -/
def descendant (nodes : List TaskNode) (a b : Nat) : Prop :=
  Relation.TransGen (edgeStepN nodes) a b

/-! ### Graph construction (`TaskGraph::new`, task_graph/graph.rs)

The petgraph digraph is modelled by the node count (one petgraph node per
task, in task order) and an explicit edge list; petgraph's `toposort` (an
external collaborator) is modelled by a Kahn-style algorithm that returns a
topological order or `none` on a cycle, which is precisely the contract the
source relies on. -/

/-- The scoped variable of a task (`(task.variable(), task.scope)`). -/
def Task.scopedVar (t : Task) : ScopedVar := (t.var, t.scope)

/-- Entries of `tasks_map`: one entry per distinct scoped variable, holding
the petgraph node index and task of the LAST task inserted with that
variable (HashMap insert overwrites).  HashMap iteration order is
unspecified in the source; entries are iterated here in index order. -/
def tasksEntries (tasks : List Task) : List (Nat × Task) :=
  tasks.enum.filter (fun p =>
    tasks.enum.all (fun q =>
      decide (q.1 ≤ p.1) || decide (q.2.scopedVar ≠ p.2.scopedVar)))

/-- `tasks_map.get(scoped_var)`. -/
def tasksMapGet (tasks : List Task) (sv : ScopedVar) : Option (Nat × Task) :=
  (tasksEntries tasks).find? (fun p => decide (p.2.scopedVar = sv))

/-- A petgraph edge: source and target node indexes plus the resolved
output variable carried as the edge weight. -/
structure BuildEdge where
  source : Nat
  target : Nat
  output_var : Option Variable
deriving DecidableEq, Repr

/-- Edges contributed by one `tasks_map` entry: resolve each input
variable, look its scoped variable up in `tasks_map`, and add an edge
unless it would point at the entry itself (self-cycle elision). -/
def edgesForInputs (resolve : TaskScope) (tasks : List Task) (selfIdx : Nat)
    (scope : List Nat) : List InputVariable → Except Err (List BuildEdge)
  | [] => Except.ok []
  | iv :: rest =>
    match resolve iv.var scope with
    | Except.error e => Except.error e
    | Except.ok r =>
      match tasksMapGet tasks (r.var, r.scope) with
      | none => Except.error (Err.internal "No variable with scope")
      | some (j, _) =>
        match edgesForInputs resolve tasks selfIdx scope rest with
        | Except.error e => Except.error e
        | Except.ok tail =>
          if j ≠ selfIdx then Except.ok (⟨j, selfIdx, r.output_var⟩ :: tail)
          else Except.ok tail

def buildEdgesAux (resolve : TaskScope) (tasks : List Task) :
    List (Nat × Task) → Except Err (List BuildEdge)
  | [] => Except.ok []
  | entry :: rest =>
    match edgesForInputs resolve tasks entry.1 entry.2.scope
        entry.2.input_vars with
    | Except.error e => Except.error e
    | Except.ok head =>
      match buildEdgesAux resolve tasks rest with
      | Except.error e => Except.error e
      | Except.ok tail => Except.ok (head ++ tail)

/-- All petgraph edges of the dependency graph. -/
def buildEdges (resolve : TaskScope) (tasks : List Task) :
    Except Err (List BuildEdge) :=
  buildEdgesAux resolve tasks (tasksEntries tasks)

/-- A node is ready when every edge into it comes from a placed node. -/
def readyB (edges : List BuildEdge) (placed : List Nat) (v : Nat) : Bool :=
  edges.all (fun e => decide (e.target ≠ v) || placed.contains e.source)

/-- Kahn-style topological sort; `none` models petgraph's cycle error. -/
def topoLoop (edges : List BuildEdge) :
    Nat → List Nat → List Nat → Option (List Nat)
  | 0, _, remaining => if remaining.isEmpty then some [] else none
  | fuel + 1, placed, remaining =>
    match remaining.find? (readyB edges placed) with
    | none => if remaining.isEmpty then some [] else none
    | some v =>
      (topoLoop edges fuel (placed ++ [v]) (remaining.erase v)).map
        (fun order => v :: order)

def toposort (n : Nat) (edges : List BuildEdge) : Option (List Nat) :=
  topoLoop edges n [] (List.range n)

/-- `graph.node_weight(pg)`: the scoped variable of the pg-th task. -/
def weightOf (tasks : List Task) (pg : Nat) : ScopedVar :=
  (tasks.getD pg defaultTask).scopedVar

/-- The `incoming_vars` map: edges into `pg`, keyed by the source node's
unscoped variable together with the edge's output variable; HashMap insert
overwrite makes the last matching edge win. -/
def lookupIncoming (tasks : List Task) (inEdges : List BuildEdge)
    (key : Variable × Option Variable) : Option Nat :=
  (inEdges.reverse.find? (fun e =>
    decide (((weightOf tasks e.source).1, e.output_var) = key))).map
    (fun e => e.source)

/-- Reconstruct the incoming edge for one input variable (step 5 of the
build): `ok none` when the petgraph edge was elided (self-dependency, the
`filter_map` skip); the output slot is the position of the resolved output
variable in the parent task's `output_vars()`, an internal error when
absent.  The two `.unwrap()`s of the source (re-resolution and the weight
lookup) are modelled as internal errors; both are unreachable once step 2
succeeded. -/
def incomingEdgeFor (resolve : TaskScope) (tasks : List Task)
    (edges : List BuildEdge) (order : List Nat) (pg : Nat) (task : Task)
    (iv : InputVariable) : Except Err (Option IncomingEdge) :=
  match resolve iv.var task.scope with
  | Except.error _ => Except.error (Err.internal "resolve_scope unwrap failed")
  | Except.ok r =>
    match lookupIncoming tasks
        (edges.filter (fun e => decide (e.target = pg)))
        (r.var, r.output_var) with
    | none => Except.ok none
    | some srcPg =>
      match r.output_var with
      | none => Except.ok (some ⟨order.indexOf srcPg, none⟩)
      | some o =>
        match tasksMapGet tasks (weightOf tasks srcPg) with
        | none => Except.error (Err.internal "tasks_map unwrap failed")
        | some (_, input_task) =>
          match input_task.output_vars.indexOf? o with
          | none =>
            Except.error (Err.internal "Failed to find output variable")
          | some outIdx =>
            Except.ok (some ⟨order.indexOf srcPg, some outIdx⟩)

/-- The spec view of `incomingEdgeFor` as a partial function into options
(errors collapsed to `none`), used to state the incoming-order contract. -/
def edgeSpecFn (resolve : TaskScope) (tasks : List Task)
    (edges : List BuildEdge) (order : List Nat) (pg : Nat) (task : Task)
    (iv : InputVariable) : Option IncomingEdge :=
  ((incomingEdgeFor resolve tasks edges order pg task iv).toOption).bind id

/-- The incoming edges of one node, in `input_vars()` order, dropping
elided edges (`filter_map`). -/
def buildIncoming (resolve : TaskScope) (tasks : List Task)
    (edges : List BuildEdge) (order : List Nat) (pg : Nat) (task : Task) :
    List InputVariable → Except Err (List IncomingEdge)
  | [] => Except.ok []
  | iv :: rest =>
    match incomingEdgeFor resolve tasks edges order pg task iv with
    | Except.error e => Except.error e
    | Except.ok head =>
      match buildIncoming resolve tasks edges order pg task rest with
      | Except.error e => Except.error e
      | Except.ok tail => Except.ok (head.toList ++ tail)

def buildOutgoing (edges : List BuildEdge) (order : List Nat) (pg : Nat) :
    List OutgoingEdge :=
  (edges.filter (fun e => decide (e.source = pg))).map
    (fun e => ⟨order.indexOf e.target, true⟩)

/-- One `TaskNode` of the final linear vector (fingerprints still zero). -/
def buildNode (resolve : TaskScope) (tasks : List Task)
    (edges : List BuildEdge) (order : List Nat) (pg : Nat) :
    Except Err TaskNode :=
  match tasksMapGet tasks (weightOf tasks pg) with
  | none => Except.error (Err.internal "tasks_map unwrap failed")
  | some (_, task) =>
    match buildIncoming resolve tasks edges order pg task
        task.input_vars with
    | Except.error e => Except.error e
    | Except.ok incoming =>
      Except.ok ⟨task, incoming, buildOutgoing edges order pg,
        Fp.empty, Fp.empty⟩

/-- Build the linear node vector by walking the toposorted indexes. -/
def buildNodes (resolve : TaskScope) (tasks : List Task)
    (edges : List BuildEdge) (order : List Nat) :
    List Nat → Except Err (List TaskNode)
  | [] => Except.ok []
  | pg :: rest =>
    match buildNode resolve tasks edges order pg with
    | Except.error e => Except.error e
    | Except.ok nd =>
      match buildNodes resolve tasks edges order rest with
      | Except.error e => Except.error e
      | Except.ok tail => Except.ok (nd :: tail)

/-- Fingerprint both passes of a freshly built node vector. -/
def finalizeGraph (nodes : List TaskNode) : TaskGraph :=
  (TaskGraph.mk nodes).init_identity_fingerprints.update_state_fingerprints.2

def newFromOrder (resolve : TaskScope) (tasks : List Task)
    (edges : List BuildEdge) (order : List Nat) : Except Err TaskGraph :=
  match buildNodes resolve tasks edges order order with
  | Except.error e => Except.error e
  | Except.ok nodes => Except.ok (finalizeGraph nodes)

def newFromEdges (resolve : TaskScope) (tasks : List Task)
    (edges : List BuildEdge) : Except Err TaskGraph :=
  match toposort tasks.length edges with
  | none =>
    Except.error (Err.internal
      "failed to sort dependency graph topologically")
  | some order => newFromOrder resolve tasks edges order

/-- `TaskGraph::new`: add one petgraph node per task, resolve and insert
edges (self-edges elided), toposort (cycle ⇒ InternalError), rebuild each
node's incoming/outgoing lists against the sorted indexes, then initialize
identity and state fingerprints. -/
def TaskGraph.new (resolve : TaskScope) (tasks : List Task) :
    Except Err TaskGraph :=
  match buildEdges resolve tasks with
  | Except.error e => Except.error e
  | Except.ok edges => newFromEdges resolve tasks edges

/-- One step along a petgraph edge. -/
def edgeStepE (edges : List BuildEdge) (a b : Nat) : Prop :=
  ∃ e ∈ edges, e.source = a ∧ e.target = b

/-- The dependency graph contains a (directed) cycle. -/
def hasCycle (edges : List BuildEdge) : Prop :=
  ∃ v, Relation.TransGen (edgeStepE edges) v v

/-- Two nodes agree on every field that feeds the state-fingerprint
computation (everything except the stored state fingerprint and the
outgoing edges). -/
def stateShapeEq (a b : TaskNode) : Prop :=
  a.task = b.task ∧ a.incoming = b.incoming ∧
    a.id_fingerprint = b.id_fingerprint

/-- A resolver that maps every variable to itself at the root scope. -/
def rootResolve : TaskScope := fun v _ => Except.ok ⟨v, [], none⟩

/-- A value task and a data task depending on it. -/
def c2ChainTasks : List Task :=
  [⟨⟨VariableNamespace.signal, "a"⟩, [],
     TaskKind.value (TaskValueData.scalar [1])⟩,
   ⟨⟨VariableNamespace.data, "b"⟩, [],
     TaskKind.dataSource
       ⟨[⟨⟨VariableNamespace.signal, "a"⟩, true⟩], [], []⟩⟩]

/-- The graph built from `c2ChainTasks`. -/
def c2Graph : TaskGraph :=
  match TaskGraph.new rootResolve c2ChainTasks with
  | Except.ok g => g
  | Except.error _ => ⟨[]⟩

/-- Two data tasks depending on each other: a dependency cycle. -/
def c2CycleTasks : List Task :=
  [⟨⟨VariableNamespace.data, "a"⟩, [],
     TaskKind.dataSource
       ⟨[⟨⟨VariableNamespace.data, "b"⟩, true⟩], [], []⟩⟩,
   ⟨⟨VariableNamespace.data, "b"⟩, [],
     TaskKind.dataSource
       ⟨[⟨⟨VariableNamespace.data, "a"⟩, true⟩], [], []⟩⟩]

/-- The petgraph edges of `c2CycleTasks`. -/
def c2CycleEdges : List BuildEdge := [⟨1, 0, none⟩, ⟨0, 1, none⟩]

/-- The petgraph edges of `c2ChainTasks`. -/
def c3Edges : List BuildEdge := [⟨0, 1, none⟩]

/-- A resolver that reports variable `p` as the output signal `o` of the
data task `p` (so slot discovery must search for `o`). -/
def c3BadResolve : TaskScope := fun v _ =>
  if v.name = "p" then
    Except.ok ⟨⟨VariableNamespace.data, "p"⟩, [],
      some ⟨VariableNamespace.signal, "o"⟩⟩
  else Except.ok ⟨v, [], none⟩

/-- A parent task with no output variables, and a child consuming the
output variable `o` the parent does not declare. -/
def c3BadTasks : List Task :=
  [⟨⟨VariableNamespace.data, "p"⟩, [], TaskKind.dataSource ⟨[], [], []⟩⟩,
   ⟨⟨VariableNamespace.data, "c"⟩, [],
     TaskKind.dataSource
       ⟨[⟨⟨VariableNamespace.data, "p"⟩, true⟩], [], []⟩⟩]

/-- The petgraph edges of `c3BadTasks`. -/
def c3BadEdges : List BuildEdge :=
  [⟨0, 1, some ⟨VariableNamespace.signal, "o"⟩⟩]

/-- A single data task whose only input resolves to itself. -/
def c5Tasks : List Task :=
  [⟨⟨VariableNamespace.data, "x"⟩, [],
     TaskKind.dataSource
       ⟨[⟨⟨VariableNamespace.data, "x"⟩, true⟩], [], []⟩⟩]

/-- A two-node chain A → B with A a Value signal task, before fingerprint
initialization. -/
def c1BaseNodes : List TaskNode :=
  [⟨⟨⟨VariableNamespace.signal, "a"⟩, [],
      TaskKind.value (TaskValueData.scalar [1])⟩, [], [⟨1, true⟩],
    Fp.empty, Fp.empty⟩,
   ⟨⟨⟨VariableNamespace.data, "b"⟩, [],
      TaskKind.dataSource ⟨[⟨⟨VariableNamespace.signal, "a"⟩, true⟩], [], []⟩⟩,
    [⟨0, none⟩], [], Fp.empty, Fp.empty⟩]

/-- The chain graph with consistent state fingerprints, used as concrete
input for the update-minimality witness. -/
def c1Graph : TaskGraph :=
  (TaskGraph.mk c1BaseNodes).update_state_fingerprints.2

/-- A one-node graph holding a (non-Value) data-url task, used as concrete
input for accessor-error witnesses. -/
def c8Graph : TaskGraph :=
  ⟨[⟨⟨⟨VariableNamespace.data, "d"⟩, [], TaskKind.dataUrl ⟨[], [], []⟩⟩,
     [], [], Fp.empty, Fp.empty⟩]⟩

/-- A lone Value task node, used as concrete input for fingerprint
witnesses. -/
def c4Node : TaskNode :=
  ⟨⟨⟨VariableNamespace.signal, "a"⟩, [],
     TaskKind.value (TaskValueData.scalar [1])⟩, [], [], Fp.empty, Fp.empty⟩


/-! Theorems for C6 and C7. -/

/-- C6: `AggregateTransformSpec::supported` returns true iff every op in
`ops` (defaulting to `[count]` when absent) is one of count, valid, missing,
distinct, sum, mean, average, min, max, variance, variancep, stdev, stdevp,
and `cross` is not `true`, and `drop` is not `false`. -/
theorem c6_aggregate_supported_iff (s : AggregateTransformSpec) :
    s.supported = true ↔
      ((∀ op ∈ s.ops.getD [AggregateOpSpec.count],
          op ∈ [AggregateOpSpec.count, AggregateOpSpec.valid,
                AggregateOpSpec.missing, AggregateOpSpec.distinct,
                AggregateOpSpec.sum, AggregateOpSpec.mean,
                AggregateOpSpec.average, AggregateOpSpec.min,
                AggregateOpSpec.max, AggregateOpSpec.variance,
                AggregateOpSpec.variancep, AggregateOpSpec.stdev,
                AggregateOpSpec.stdevp]) ∧
        s.cross ≠ some true ∧ s.drop ≠ some false) := by
  have hiff : ∀ op : AggregateOpSpec, op.supportedOp = true ↔
      op ∈ [AggregateOpSpec.count, AggregateOpSpec.valid,
            AggregateOpSpec.missing, AggregateOpSpec.distinct,
            AggregateOpSpec.sum, AggregateOpSpec.mean,
            AggregateOpSpec.average, AggregateOpSpec.min,
            AggregateOpSpec.max, AggregateOpSpec.variance,
            AggregateOpSpec.variancep, AggregateOpSpec.stdev,
            AggregateOpSpec.stdevp] := by
    intro op
    cases op <;> simp [AggregateOpSpec.supportedOp]
  unfold AggregateTransformSpec.supported
  by_cases hany : (s.ops.getD [AggregateOpSpec.count]).any
      (fun op => !op.supportedOp) = true
  · simp only [hany, if_true]
    constructor
    · intro h; exact absurd h (by simp)
    · rintro ⟨hall, -, -⟩
      rcases List.any_eq_true.mp hany with ⟨op, hop, hbad⟩
      rw [Bool.not_eq_true'] at hbad
      exact absurd ((hiff op).mpr (hall op hop)) (by simp [hbad])
  · have hany' : (s.ops.getD [AggregateOpSpec.count]).any
        (fun op => !op.supportedOp) = false := by
      cases h : (s.ops.getD [AggregateOpSpec.count]).any
          (fun op => !op.supportedOp)
      · rfl
      · exact absurd h hany
    have hall : ∀ op ∈ s.ops.getD [AggregateOpSpec.count],
        op ∈ [AggregateOpSpec.count, AggregateOpSpec.valid,
              AggregateOpSpec.missing, AggregateOpSpec.distinct,
              AggregateOpSpec.sum, AggregateOpSpec.mean,
              AggregateOpSpec.average, AggregateOpSpec.min,
              AggregateOpSpec.max, AggregateOpSpec.variance,
              AggregateOpSpec.variancep, AggregateOpSpec.stdev,
              AggregateOpSpec.stdevp] := by
      intro op hop
      rw [← hiff]
      have := List.any_eq_false.mp hany' op hop
      rw [Bool.not_eq_true'] at this
      simpa using this
    simp only [hany', Bool.false_eq_true, if_false]
    by_cases hcross : s.cross = some true
    · simp [hcross]
    · by_cases hdrop : s.drop = some false
      · simp [hcross, hdrop]
      · simp only [hcross, hdrop]
        simp [hcross, hdrop]
        intro op hop
        simpa using hall op hop

/-- C7: `ColumnUsage::union` is a join with `Unknown` as top: union with
`Unknown` on either side is `Unknown`, union of two `Known` sets is the
`Known` union; the operation is commutative, associative, idempotent and has
`Known ∅` (i.e. `ColumnUsage::empty`) as identity. -/
theorem c7_column_usage_union_join :
    (∀ a, ColumnUsage.union ColumnUsage.Unknown a = ColumnUsage.Unknown) ∧
    (∀ a, ColumnUsage.union a ColumnUsage.Unknown = ColumnUsage.Unknown) ∧
    (∀ s t : Finset String,
      ColumnUsage.union (ColumnUsage.Known s) (ColumnUsage.Known t) =
        ColumnUsage.Known (s ∪ t)) ∧
    (∀ a b, ColumnUsage.union a b = ColumnUsage.union b a) ∧
    (∀ a b c,
      ColumnUsage.union (ColumnUsage.union a b) c =
        ColumnUsage.union a (ColumnUsage.union b c)) ∧
    (∀ a, ColumnUsage.union a a = a) ∧
    (∀ a, ColumnUsage.union ColumnUsage.empty a = a ∧
          ColumnUsage.union a ColumnUsage.empty = a) := by
  refine ⟨?_, ?_, ?_, ?_, ?_, ?_, ?_⟩
  · intro a; cases a <;> rfl
  · intro a; cases a <;> rfl
  · intro s t; rfl
  · intro a b
    cases a <;> cases b <;> simp [ColumnUsage.union, Finset.union_comm]
  · intro a b c
    cases a <;> cases b <;> cases c <;>
      simp [ColumnUsage.union, Finset.union_assoc]
  · intro a; cases a <;> simp [ColumnUsage.union]
  · intro a
    cases a <;> simp [ColumnUsage.union, ColumnUsage.empty]

/-! Supporting lemmas about the fingerprint vectors. -/

lemma accumFpsAux_suffix (f : List Fp → TaskNode → Fp) :
    ∀ (ns : List TaskNode) (acc : List Fp),
      ∃ ext, accumFpsAux f acc ns = acc ++ ext := by
  intro ns
  induction ns with
  | nil => exact fun acc => ⟨[], by simp [accumFpsAux]⟩
  | cons n rest ih =>
    intro acc
    obtain ⟨ext, hext⟩ := ih (acc ++ [f acc n])
    exact ⟨[f acc n] ++ ext, by simp [accumFpsAux, hext]⟩

lemma accumFpsAux_length (f : List Fp → TaskNode → Fp) :
    ∀ (ns : List TaskNode) (acc : List Fp),
      (accumFpsAux f acc ns).length = acc.length + ns.length := by
  intro ns
  induction ns with
  | nil => simp [accumFpsAux]
  | cons n rest ih =>
    intro acc
    simp [accumFpsAux, ih (acc ++ [f acc n])]
    omega

lemma accumFps_length (f : List Fp → TaskNode → Fp) (nodes : List TaskNode) :
    (accumFps f nodes).length = nodes.length := by
  simpa [accumFps] using accumFpsAux_length f nodes []

lemma accumFpsAux_append (f : List Fp → TaskNode → Fp) :
    ∀ (l₁ l₂ : List TaskNode) (acc : List Fp),
      accumFpsAux f acc (l₁ ++ l₂) = accumFpsAux f (accumFpsAux f acc l₁) l₂ := by
  intro l₁
  induction l₁ with
  | nil => intro l₂ acc; simp [accumFpsAux]
  | cons n rest ih => intro l₂ acc; simp [accumFpsAux, ih]

lemma accumFps_getElem? (f : List Fp → TaskNode → Fp) (nodes : List TaskNode)
    (i : Nat) (hi : i < nodes.length) :
    (accumFps f nodes)[i]? =
      some (f (accumFps f (nodes.take i)) nodes[i]) := by
  have hsplit : nodes = nodes.take i ++ (nodes[i] :: nodes.drop (i + 1)) := by
    conv_lhs => rw [← List.take_append_drop i nodes]
    rw [List.drop_eq_getElem_cons hi]
  have hlen : (accumFps f (nodes.take i)).length = i := by
    rw [accumFps_length, List.length_take]
    omega
  conv_lhs => rw [hsplit]
  show (accumFpsAux f [] (nodes.take i ++ (nodes[i] :: nodes.drop (i + 1))))[i]? = _
  rw [accumFpsAux_append]
  show (accumFpsAux f (accumFps f (nodes.take i)) (nodes[i] :: nodes.drop (i + 1)))[i]? = _
  rw [show accumFpsAux f (accumFps f (nodes.take i))
        (nodes[i] :: nodes.drop (i + 1)) =
      accumFpsAux f (accumFps f (nodes.take i) ++
        [f (accumFps f (nodes.take i)) nodes[i]]) (nodes.drop (i + 1)) from rfl]
  obtain ⟨ext, hext⟩ := accumFpsAux_suffix f (nodes.drop (i + 1))
    (accumFps f (nodes.take i) ++ [f (accumFps f (nodes.take i)) nodes[i]])
  rw [hext, List.append_assoc, List.getElem?_append_right (by omega), hlen]
  simp

lemma accumFps_take (f : List Fp → TaskNode → Fp) (nodes : List TaskNode)
    (i : Nat) :
    (accumFps f nodes).take i = accumFps f (nodes.take i) := by
  by_cases hi : i ≤ nodes.length
  · have hsplit : nodes = nodes.take i ++ nodes.drop i :=
      (List.take_append_drop i nodes).symm
    have hlen : (accumFps f (nodes.take i)).length = i := by
      rw [accumFps_length, List.length_take]; omega
    conv_lhs => rw [hsplit]
    show (accumFpsAux f [] (nodes.take i ++ nodes.drop i)).take i = _
    rw [accumFpsAux_append,
      show accumFpsAux f [] (nodes.take i) = accumFps f (nodes.take i)
        from rfl]
    obtain ⟨ext, hext⟩ := accumFpsAux_suffix f (nodes.drop i)
      (accumFps f (nodes.take i))
    rw [hext]
    have htl := List.take_left (accumFps f (nodes.take i)) ext
    rw [hlen] at htl
    exact htl
  · have h1 : nodes.take i = nodes := List.take_of_length_le (by omega)
    have h2 : (accumFps f nodes).take i = accumFps f nodes :=
      List.take_of_length_le (by rw [accumFps_length]; omega)
    rw [h1, h2]

lemma set_take {α : Type _} (l : List α) (k : Nat) (x : α) :
    (l.set k x).take k = l.take k := by
  apply List.ext_getElem?
  intro m
  by_cases hm : m < k
  · rw [List.getElem?_take, List.getElem?_take, if_pos hm, if_pos hm,
      List.getElem?_set_ne (by omega)]
  · rw [List.getElem?_take, List.getElem?_take, if_neg hm, if_neg hm]

lemma getElem?_zip_of {α β : Type _} (l : List α) (m : List β) (k : Nat)
    (hk : k < l.length) (hk2 : k < m.length) :
    (l.zip m)[k]? = some (l[k], m[k]) := by
  rw [List.getElem?_eq_getElem (by rw [List.length_zip]; omega),
    List.getElem_zip]

/-- Index view of `update_state_fingerprints`: the new graph stores the
freshly computed state fingerprints. -/
lemma update_state_fingerprints_getElem? (g : TaskGraph) (k : Nat)
    (hk : k < g.nodes.length) :
    (g.update_state_fingerprints.2.nodes[k]?.map
      (fun n => n.state_fingerprint)) = (computeStateFps g.nodes)[k]? := by
  have hlen : (computeStateFps g.nodes).length = g.nodes.length :=
    accumFps_length _ _
  have hz := getElem?_zip_of g.nodes (computeStateFps g.nodes) k hk (by omega)
  simp only [TaskGraph.update_state_fingerprints, List.getElem?_map, hz,
    Option.map_some]
  rw [List.getElem?_eq_getElem (by omega)]
  rfl

/-- Index view of `init_identity_fingerprints`. -/
lemma init_identity_fingerprints_getElem? (g : TaskGraph) (k : Nat)
    (hk : k < g.nodes.length) :
    ((g.init_identity_fingerprints).nodes[k]?.map
      (fun n => n.id_fingerprint)) = (computeIdFps g.nodes)[k]? := by
  have hlen : (computeIdFps g.nodes).length = g.nodes.length :=
    accumFps_length _ _
  have hz := getElem?_zip_of g.nodes (computeIdFps g.nodes) k hk (by omega)
  simp only [TaskGraph.init_identity_fingerprints, List.getElem?_map, hz,
    Option.map_some]
  rw [List.getElem?_eq_getElem (by omega)]
  rfl

lemma set_eq_self_of_getElem? {α : Type _} {l : List α} {i : Nat} {x : α}
    (h : l[i]? = some x) : l.set i x = l := by
  apply List.ext_getElem?
  intro m
  rw [List.getElem?_set]
  by_cases him : i = m
  · subst him
    have hi : i < l.length := by
      by_contra hip
      rw [List.getElem?_eq_none (by omega)] at h
      cases h
    simp [hi, h]
  · simp [him]

lemma zip_getElem?_eq {α β : Type _} {l : List α} {m : List β} {k : Nat}
    {p : α × β} (h : (l.zip m)[k]? = some p) :
    l[k]? = some p.1 ∧ m[k]? = some p.2 := by
  have hk : k < (l.zip m).length := by
    by_contra hip
    rw [List.getElem?_eq_none (by omega)] at h
    cases h
  have hk1 : k < l.length := by rw [List.length_zip] at hk; omega
  have hk2 : k < m.length := by rw [List.length_zip] at hk; omega
  have := getElem?_zip_of l m k hk1 hk2
  rw [h] at this
  have hp : p = (l[k], m[k]) := (Option.some.injEq _ _).mp this
  subst hp
  exact ⟨List.getElem?_eq_getElem hk1, List.getElem?_eq_getElem hk2⟩

/-- Prop form of the `wellOrdered` invariant. -/
lemma wellOrdered_spec {g : TaskGraph} (hw : g.wellOrdered = true) :
    ∀ (i : Nat) (nd : TaskNode), g.nodes[i]? = some nd →
      ∀ e ∈ nd.incoming, e.source < i := by
  intro i nd hnd e he
  have hmem : ((i, nd) : Nat × TaskNode) ∈ g.nodes.enum := by
    rw [List.mem_enum_iff_getElem?]
    exact hnd
  have hall := List.all_eq_true.mp hw _ hmem
  simp only at hall
  have hsrc := List.all_eq_true.mp hall e he
  exact of_decide_eq_true hsrc

/-- Prop form of the `stateConsistent` invariant. -/
lemma stateConsistent_spec {g : TaskGraph} (hc : g.stateConsistent = true) :
    g.nodes.map (fun nd => nd.state_fingerprint) = computeStateFps g.nodes :=
  of_decide_eq_true hc

lemma stateFpOf_congr (acc : List Fp) {a b : TaskNode}
    (h : stateShapeEq a b) : stateFpOf acc a = stateFpOf acc b := by
  obtain ⟨ht, hi, hid⟩ := h
  unfold stateFpOf
  rw [ht, hi, hid]

lemma accumFpsAux_congr {l₁ l₂ : List TaskNode}
    (h : List.Forall₂ stateShapeEq l₁ l₂) :
    ∀ acc, accumFpsAux stateFpOf acc l₁ = accumFpsAux stateFpOf acc l₂ := by
  induction h with
  | nil => intro _; rfl
  | cons hab _ ih =>
    intro acc
    show accumFpsAux stateFpOf (acc ++ [stateFpOf acc _]) _ = _
    rw [stateFpOf_congr acc hab]
    exact ih _

lemma computeStateFps_congr {l₁ l₂ : List TaskNode}
    (h : List.Forall₂ stateShapeEq l₁ l₂) :
    computeStateFps l₁ = computeStateFps l₂ :=
  accumFpsAux_congr h []

/-- Explicit node form of the refreshed graph. -/
lemma update_state_nodes_getElem? (g : TaskGraph) (k : Nat) {nd : TaskNode}
    {fp : Fp} (h1 : g.nodes[k]? = some nd)
    (h2 : (computeStateFps g.nodes)[k]? = some fp) :
    g.update_state_fingerprints.2.nodes[k]? =
      some { nd with state_fingerprint := fp } := by
  have hk : k < g.nodes.length := by
    by_contra hip
    rw [List.getElem?_eq_none (by omega)] at h1
    cases h1
  have hlen : (computeStateFps g.nodes).length = g.nodes.length :=
    accumFps_length _ _
  have hz := getElem?_zip_of g.nodes (computeStateFps g.nodes) k hk (by omega)
  have hg : g.nodes[k] = nd := by
    have := List.getElem?_eq_getElem hk
    rw [h1] at this
    injection this.symm
  have hf : (computeStateFps g.nodes)[k] = fp := by
    have := List.getElem?_eq_getElem (l := computeStateFps g.nodes)
      (n := k) (by omega)
    rw [h2] at this
    injection this.symm
  simp only [TaskGraph.update_state_fingerprints, List.getElem?_map, hz,
    hg, hf]
  rfl

lemma update_state_nodes_shape (g : TaskGraph) :
    List.Forall₂ stateShapeEq g.update_state_fingerprints.2.nodes g.nodes := by
  rw [List.forall₂_iff_get]
  have hlenf : (computeStateFps g.nodes).length = g.nodes.length :=
    accumFps_length _ _
  have hlen : g.update_state_fingerprints.2.nodes.length = g.nodes.length := by
    simp only [TaskGraph.update_state_fingerprints, List.length_map,
      List.length_zip]
    omega
  refine ⟨hlen, ?_⟩
  intro i h₁ h₂
  simp only [List.get_eq_getElem]
  have hi : i < g.nodes.length := h₂
  have hz := getElem?_zip_of g.nodes (computeStateFps g.nodes) i hi (by omega)
  have : g.update_state_fingerprints.2.nodes[i]? =
      some { g.nodes[i] with
        state_fingerprint := (computeStateFps g.nodes)[i] } := by
    simp only [TaskGraph.update_state_fingerprints, List.getElem?_map, hz]
    rfl
  have hsome := List.getElem?_eq_getElem (l := g.update_state_fingerprints.2.nodes)
    (n := i) h₁
  rw [this] at hsome
  have heq : g.update_state_fingerprints.2.nodes[i] =
      { g.nodes[i] with state_fingerprint := (computeStateFps g.nodes)[i] } :=
    ((Option.some.injEq _ _).mp hsome).symm
  rw [heq]
  exact ⟨rfl, rfl, rfl⟩

/-- After a refresh, the stored state fingerprints agree with a fresh
recomputation. -/
lemma stateConsistent_after (g : TaskGraph) :
    g.update_state_fingerprints.2.stateConsistent = true := by
  apply decide_eq_true
  rw [computeStateFps_congr (update_state_nodes_shape g)]
  apply List.ext_getElem?
  intro k
  have hlenf : (computeStateFps g.nodes).length = g.nodes.length :=
    accumFps_length _ _
  by_cases hk : k < g.nodes.length
  · rw [List.getElem?_map]
    rw [update_state_fingerprints_getElem? g k hk]
  · have h1 : g.update_state_fingerprints.2.nodes.length = g.nodes.length := by
      simp only [TaskGraph.update_state_fingerprints, List.length_map,
        List.length_zip]
      omega
    rw [List.getElem?_map, List.getElem?_eq_none (l := g.update_state_fingerprints.2.nodes) (by omega),
      List.getElem?_eq_none (l := computeStateFps g.nodes) (by omega)]
    rfl

/-- Refreshing a consistent graph changes nothing and reports no change. -/
lemma update_state_of_consistent (g : TaskGraph)
    (hc : g.stateConsistent = true) :
    g.update_state_fingerprints = ([], g) := by
  have hmap := stateConsistent_spec hc
  have hpoint : ∀ (k : Nat) (nd : TaskNode) (fp : Fp), g.nodes[k]? = some nd →
      (computeStateFps g.nodes)[k]? = some fp → nd.state_fingerprint = fp := by
    intro k nd fp h1 h2
    have hcast := congrArg (fun l : List Fp => l[k]?) hmap
    simp only [List.getElem?_map, h1, h2] at hcast
    exact (Option.some.injEq _ _).mp (by simpa using hcast)
  unfold TaskGraph.update_state_fingerprints
  simp only
  rw [Prod.mk.injEq]
  constructor
  · rw [List.filterMap_eq_nil_iff]
    intro p hp
    have hz := List.mem_enum_iff_getElem?.mp hp
    obtain ⟨h1, h2⟩ := zip_getElem?_eq hz
    rw [if_neg]
    simp only [ne_eq, not_not]
    exact hpoint p.1 p.2.1 p.2.2 h1 h2
  · have : (g.nodes.zip (computeStateFps g.nodes)).map
        (fun p => { p.1 with state_fingerprint := p.2 }) = g.nodes := by
      apply List.ext_getElem?
      intro k
      have hlenf : (computeStateFps g.nodes).length = g.nodes.length :=
        accumFps_length _ _
      by_cases hk : k < g.nodes.length
      · have hz := getElem?_zip_of g.nodes (computeStateFps g.nodes) k hk
          (by omega)
        rw [List.getElem?_map, hz, List.getElem?_eq_getElem hk]
        have hfp : g.nodes[k].state_fingerprint = (computeStateFps g.nodes)[k] :=
          hpoint k (g.nodes[k]) ((computeStateFps g.nodes)[k])
            (List.getElem?_eq_getElem hk)
            (List.getElem?_eq_getElem (by omega))
        rw [← hfp]
        rfl
      · rw [List.getElem?_map,
          List.getElem?_eq_none (l := g.nodes.zip (computeStateFps g.nodes))
            (by rw [List.length_zip]; omega),
          List.getElem?_eq_none (l := g.nodes) (by omega)]
        rfl
    rw [this]

/-- Membership in the changed-index list of `update_state_fingerprints`. -/
lemma mem_update_state_changed (g : TaskGraph) (i : Nat) :
    i ∈ g.update_state_fingerprints.1 ↔
      ∃ nd fp, g.nodes[i]? = some nd ∧
        (computeStateFps g.nodes)[i]? = some fp ∧
        nd.state_fingerprint ≠ fp := by
  unfold TaskGraph.update_state_fingerprints
  simp only
  rw [List.mem_filterMap]
  constructor
  · rintro ⟨p, hp, hf⟩
    by_cases hne : p.2.1.state_fingerprint ≠ p.2.2
    · rw [if_pos hne] at hf
      have hpi : p.1 = i := by injection hf
      subst hpi
      have hz := List.mem_enum_iff_getElem?.mp hp
      obtain ⟨h1, h2⟩ := zip_getElem?_eq hz
      exact ⟨p.2.1, p.2.2, h1, h2, hne⟩
    · rw [if_neg hne] at hf
      cases hf
  · rintro ⟨nd, fp, h1, h2, hne⟩
    have hk : i < g.nodes.length := by
      by_contra hip
      rw [List.getElem?_eq_none (by omega)] at h1
      cases h1
    have hlenf : (computeStateFps g.nodes).length = g.nodes.length :=
      accumFps_length _ _
    refine ⟨(i, nd, fp), ?_, by simp [hne]⟩
    rw [List.mem_enum_iff_getElem?]
    show (g.nodes.zip (computeStateFps g.nodes))[i]? = some (nd, fp)
    rw [getElem?_zip_of g.nodes (computeStateFps g.nodes) i hk (by omega)]
    have hg : g.nodes[i] = nd := by
      have := List.getElem?_eq_getElem hk
      rw [h1] at this
      injection this.symm
    have hf' : (computeStateFps g.nodes)[i] = fp := by
      have := List.getElem?_eq_getElem (l := computeStateFps g.nodes)
        (n := i) (by omega)
      rw [h2] at this
      injection this.symm
    rw [hg, hf']

/-- Replacing node `n` by a node with the same incoming edges preserves the
one-step dependency relation. -/
lemma edgeStepN_set {nodes : List TaskNode} {n : Nat} {nd node : TaskNode}
    (hn : nodes[n]? = some node) (hinc : nd.incoming = node.incoming) :
    ∀ a b, edgeStepN (nodes.set n nd) a b ↔ edgeStepN nodes a b := by
  intro a b
  have hlt : n < nodes.length := by
    by_contra hip
    rw [List.getElem?_eq_none (by omega)] at hn
    cases hn
  unfold edgeStepN
  by_cases hb : b = n
  · subst hb
    rw [List.getElem?_set_self hlt, hn]
    constructor
    · rintro ⟨m, hm, he⟩
      have hmn : nd = m := (Option.some.injEq _ _).mp hm
      subst hmn
      exact ⟨node, rfl, by rwa [← hinc]⟩
    · rintro ⟨m, hm, he⟩
      have hmn : node = m := (Option.some.injEq _ _).mp hm
      subst hmn
      exact ⟨nd, rfl, by rwa [hinc]⟩
  · rw [List.getElem?_set_ne (by omega)]

/-- Core propagation lemma: after replacing node `n` (same incoming edges),
every node that is neither `n` nor a transitive descendant of `n` keeps its
computed state fingerprint. -/
lemma stateFps_unchanged_off_descendants (g : TaskGraph) (n : Nat)
    (nd : TaskNode) (hw : g.wellOrdered = true) :
    ∀ i, i ≠ n → ¬ descendant g.nodes n i →
      (computeStateFps (g.nodes.set n nd))[i]? =
        (computeStateFps g.nodes)[i]? := by
  have hwp := wellOrdered_spec hw
  intro i
  induction i using Nat.strong_induction_on with
  | _ i IH =>
    intro hne hdesc
    by_cases hi : i < g.nodes.length
    · have hi' : i < (g.nodes.set n nd).length := by
        rw [List.length_set]; omega
      show (accumFps stateFpOf (g.nodes.set n nd))[i]? =
        (accumFps stateFpOf g.nodes)[i]?
      rw [accumFps_getElem? stateFpOf (g.nodes.set n nd) i hi',
        accumFps_getElem? stateFpOf g.nodes i hi]
      have hgeti : (g.nodes.set n nd)[i] = g.nodes[i] := by
        have h1 := List.getElem?_set_ne (l := g.nodes)
          (i := n) (j := i) (a := nd) (by omega)
        have h2 := List.getElem?_eq_getElem hi'
        rw [h1, List.getElem?_eq_getElem hi] at h2
        exact ((Option.some.injEq _ _).mp h2).symm
      rw [hgeti]
      have hsrc : ∀ e ∈ g.nodes[i].incoming, e.source < i :=
        hwp i (g.nodes[i]) (List.getElem?_eq_getElem hi)
      have hmap :
          (g.nodes[i].incoming.map (fun e =>
            (accumFps stateFpOf ((g.nodes.set n nd).take i)).getD e.source
              Fp.empty)) =
          (g.nodes[i].incoming.map (fun e =>
            (accumFps stateFpOf (g.nodes.take i)).getD e.source Fp.empty)) := by
        apply List.map_congr_left
        intro e he
        have hs : e.source < i := hsrc e he
        have hsn : e.source ≠ n := by
          intro hcontra
          exact hdesc (Relation.TransGen.single
            ⟨g.nodes[i], List.getElem?_eq_getElem hi,
              e, he, hcontra⟩)
        have hsd : ¬ descendant g.nodes n e.source := by
          intro hcontra
          exact hdesc (Relation.TransGen.tail hcontra
            ⟨g.nodes[i], List.getElem?_eq_getElem hi, e, he, rfl⟩)
        have hIH := IH e.source hs hsn hsd
        rw [← accumFps_take stateFpOf (g.nodes.set n nd) i,
          ← accumFps_take stateFpOf g.nodes i,
          List.getD_eq_getElem?_getD, List.getD_eq_getElem?_getD,
          List.getElem?_take, List.getElem?_take, if_pos hs, if_pos hs]
        show ((computeStateFps (g.nodes.set n nd))[e.source]?).getD Fp.empty =
          ((computeStateFps g.nodes)[e.source]?).getD Fp.empty
        rw [hIH]
      cases hkind : g.nodes[i].task.task_kind with
      | value v => simp only [stateFpOf, hkind]
      | dataUrl d => simp only [stateFpOf, hkind]; rw [hmap]
      | dataValues d => simp only [stateFpOf, hkind]; rw [hmap]
      | dataSource d => simp only [stateFpOf, hkind]; rw [hmap]
    · have hl1 : (computeStateFps (g.nodes.set n nd)).length ≤ i := by
        rw [show computeStateFps (g.nodes.set n nd) =
            accumFps stateFpOf (g.nodes.set n nd) from rfl, accumFps_length,
          List.length_set]
        omega
      have hl2 : (computeStateFps g.nodes).length ≤ i := by
        rw [show computeStateFps g.nodes = accumFps stateFpOf g.nodes
            from rfl, accumFps_length]
        omega
      rw [List.getElem?_eq_none hl1, List.getElem?_eq_none hl2]

/-! Supporting lemmas about the topological sort. -/

lemma indexOf_lt_of_mem_take {α : Type _} [DecidableEq α] :
    ∀ {l : List α} {k : Nat} {x : α}, x ∈ l.take k → l.indexOf x < k := by
  intro l
  induction l with
  | nil => intro k x hx; simp at hx
  | cons a t ih =>
    intro k x hx
    cases k with
    | zero => simp at hx
    | succ k =>
      rw [List.take_succ_cons] at hx
      rcases List.mem_cons.mp hx with h | h
      · subst h
        simp [List.indexOf_cons_self]
      · by_cases hax : x = a
        · subst hax
          simp [List.indexOf_cons_self]
        · rw [List.indexOf_cons_ne _ (fun hcontra => hax hcontra.symm)]
          exact Nat.succ_lt_succ (ih h)

lemma topoLoop_perm (edges : List BuildEdge) :
    ∀ (fuel : Nat) (placed remaining order : List Nat),
      topoLoop edges fuel placed remaining = some order →
      order.Perm remaining := by
  intro fuel
  induction fuel with
  | zero =>
    intro placed remaining order h
    unfold topoLoop at h
    by_cases he : remaining.isEmpty
    · rw [if_pos he] at h
      have h1 : order = [] := ((Option.some.injEq _ _).mp h).symm
      have h2 : remaining = [] := List.isEmpty_iff.mp he
      rw [h1, h2]
    · rw [if_neg he] at h
      cases h
  | succ fuel ih =>
    intro placed remaining order h
    unfold topoLoop at h
    split at h
    · by_cases he : remaining.isEmpty
      · rw [if_pos he] at h
        have h1 : order = [] := ((Option.some.injEq _ _).mp h).symm
        have h2 : remaining = [] := List.isEmpty_iff.mp he
        rw [h1, h2]
      · rw [if_neg he] at h
        cases h
    · next v hf =>
      cases ht : topoLoop edges fuel (placed ++ [v]) (remaining.erase v) with
      | none => rw [ht] at h; simp at h
      | some order' =>
        rw [ht] at h
        replace h : some (v :: order') = some order := h
        have h1 : order = v :: order' := ((Option.some.injEq _ _).mp h).symm
        have hperm := ih _ _ _ ht
        have hv := List.mem_of_find?_eq_some hf
        rw [h1]
        exact (hperm.cons v).trans (List.perm_cons_erase hv).symm

lemma topoLoop_sound (edges : List BuildEdge) :
    ∀ (fuel : Nat) (placed remaining order : List Nat),
      topoLoop edges fuel placed remaining = some order →
      ∀ (k : Nat) (hk : k < order.length), ∀ e ∈ edges,
        e.target = order[k] →
        e.source ∈ placed ∨ e.source ∈ order.take k := by
  intro fuel
  induction fuel with
  | zero =>
    intro placed remaining order h
    unfold topoLoop at h
    by_cases he : remaining.isEmpty
    · rw [if_pos he] at h
      have h1 : order = [] := ((Option.some.injEq _ _).mp h).symm
      subst h1
      intro k hk
      simp at hk
    · rw [if_neg he] at h
      cases h
  | succ fuel ih =>
    intro placed remaining order h
    unfold topoLoop at h
    split at h
    · by_cases he : remaining.isEmpty
      · rw [if_pos he] at h
        have h1 : order = [] := ((Option.some.injEq _ _).mp h).symm
        subst h1
        intro k hk
        simp at hk
      · rw [if_neg he] at h
        cases h
    · next v hf =>
      cases ht : topoLoop edges fuel (placed ++ [v]) (remaining.erase v) with
      | none => rw [ht] at h; simp at h
      | some order' =>
        rw [ht] at h
        replace h : some (v :: order') = some order := h
        have h1 : order = v :: order' := ((Option.some.injEq _ _).mp h).symm
        subst h1
        have hready : readyB edges placed v = true := List.find?_some hf
        intro k hk e he htgt
        cases k with
        | zero =>
          left
          have hall := List.all_eq_true.mp hready e he
          simp only [List.getElem_cons_zero] at htgt
          rcases Bool.or_eq_true_iff.mp hall with hc | hc
          · exact absurd htgt (by simpa using of_decide_eq_true hc)
          · exact List.mem_of_elem_eq_true hc
        | succ k =>
          have hk' : k < order'.length := by
            simpa using Nat.lt_of_succ_lt_succ hk
          have htgt' : e.target = order'[k] := by
            simpa using htgt
          rcases ih _ _ _ ht k hk' e he htgt' with hcase | hcase
          · rcases List.mem_append.mp hcase with hp | hp
            · exact Or.inl hp
            · right
              rw [List.take_succ_cons]
              exact List.mem_cons.mpr (Or.inl (by simpa using hp))
          · right
            rw [List.take_succ_cons]
            exact List.mem_cons.mpr (Or.inr hcase)

lemma toposort_perm {n : Nat} {edges : List BuildEdge} {order : List Nat}
    (h : toposort n edges = some order) : order.Perm (List.range n) :=
  topoLoop_perm edges n [] (List.range n) order h

lemma toposort_ordering {n : Nat} {edges : List BuildEdge}
    {order : List Nat} (h : toposort n edges = some order) {e : BuildEdge}
    (he : e ∈ edges) (hs : e.source < n) (ht : e.target < n) :
    order.indexOf e.source < order.indexOf e.target := by
  have hperm := toposort_perm h
  have hmemT : e.target ∈ order :=
    hperm.mem_iff.mpr (List.mem_range.mpr ht)
  have hk : order.indexOf e.target < order.length :=
    List.indexOf_lt_length.mpr hmemT
  have hgk : order[order.indexOf e.target] = e.target := by
    have := List.indexOf_get (a := e.target) (l := order) hk
    simpa using this
  rcases topoLoop_sound edges n [] (List.range n) order h
      (order.indexOf e.target) hk e he hgk.symm with hcase | hcase
  · simp at hcase
  · exact indexOf_lt_of_mem_take hcase

lemma toposort_none_of_cycle {n : Nat} {edges : List BuildEdge}
    (hrange : ∀ e ∈ edges, e.source < n ∧ e.target < n)
    (hcyc : hasCycle edges) : toposort n edges = none := by
  cases ho : toposort n edges with
  | none => rfl
  | some order =>
    exfalso
    obtain ⟨v, hv⟩ := hcyc
    have hmono : ∀ a b, Relation.TransGen (edgeStepE edges) a b →
        order.indexOf a < order.indexOf b := by
      intro a b htg
      induction htg with
      | single hstep =>
        obtain ⟨e, he, h1, h2⟩ := hstep
        rw [← h1, ← h2]
        exact toposort_ordering ho he (hrange e he).1 (hrange e he).2
      | tail _ hstep ih =>
        obtain ⟨e, he, h1, h2⟩ := hstep
        have := toposort_ordering ho he (hrange e he).1 (hrange e he).2
        rw [h1, h2] at this
        omega
    exact absurd (hmono v v hv) (lt_irrefl _)

/-- The edges produced by the build stay within the node range, never point
at their own entry, and always target their entry's index. -/
lemma edgesForInputs_mem {resolve : TaskScope} {tasks : List Task}
    {selfIdx : Nat} {scope : List Nat} :
    ∀ {ivs : List InputVariable} {es : List BuildEdge},
      edgesForInputs resolve tasks selfIdx scope ivs = Except.ok es →
      ∀ e ∈ es, e.target = selfIdx ∧ e.source < tasks.length ∧
        e.source ≠ selfIdx := by
  intro ivs
  induction ivs with
  | nil =>
    intro es h e he
    have : ([] : List BuildEdge) = es := by
      simpa [edgesForInputs] using h
    rw [← this] at he
    cases he
  | cons iv rest ih =>
    intro es h e he
    unfold edgesForInputs at h
    split at h
    · simp at h
    · next r hr =>
      split at h
      · simp at h
      · next j snd hm =>
        split at h
        · simp at h
        · next tail ht =>
          have hj : j < tasks.length := by
            have hmem := List.mem_of_find?_eq_some hm
            have hget := List.mem_enum_iff_getElem?.mp
              (List.mem_filter.mp hmem).1
            by_contra hip
            rw [List.getElem?_eq_none (by omega)] at hget
            cases hget
          split at h
          · next hne =>
            have hes : (⟨j, selfIdx, r.output_var⟩ : BuildEdge) :: tail = es :=
              (Except.ok.injEq _ _).mp h
            rw [← hes] at he
            rcases List.mem_cons.mp he with h1 | h1
            · subst h1
              exact ⟨rfl, hj, hne⟩
            · exact ih ht e h1
          · next hne =>
            have hes : tail = es := (Except.ok.injEq _ _).mp h
            rw [← hes] at he
            exact ih ht e he

lemma buildEdgesAux_mem {resolve : TaskScope} {tasks : List Task} :
    ∀ {entries : List (Nat × Task)} {es : List BuildEdge},
      buildEdgesAux resolve tasks entries = Except.ok es →
      ∀ e ∈ es, ∃ entry ∈ entries, e.target = entry.1 ∧
        e.source < tasks.length ∧ e.source ≠ entry.1 := by
  intro entries
  induction entries with
  | nil =>
    intro es h e he
    have : ([] : List BuildEdge) = es := by
      simpa [buildEdgesAux] using h
    rw [← this] at he
    cases he
  | cons entry rest ih =>
    intro es h e he
    unfold buildEdgesAux at h
    split at h
    · simp at h
    · next head hh =>
      split at h
      · simp at h
      · next tail htl =>
        have hes : head ++ tail = es := (Except.ok.injEq _ _).mp h
        rw [← hes] at he
        rcases List.mem_append.mp he with h1 | h1
        · obtain ⟨h2, h3, h4⟩ := edgesForInputs_mem hh e h1
          exact ⟨entry, List.mem_cons_self _ _, h2, h3, h4⟩
        · obtain ⟨en, hen, hrest⟩ := ih htl e h1
          exact ⟨en, List.mem_cons_of_mem _ hen, hrest⟩

/-- Every built edge stays within the node range. -/
lemma buildEdges_range {resolve : TaskScope} {tasks : List Task}
    {es : List BuildEdge} (h : buildEdges resolve tasks = Except.ok es) :
    ∀ e ∈ es, e.source < tasks.length ∧ e.target < tasks.length := by
  intro e he
  obtain ⟨entry, hentry, h1, h2, _⟩ := buildEdgesAux_mem h e he
  have hmem := List.mem_enum_iff_getElem?.mp (List.mem_filter.mp hentry).1
  have hlt : entry.1 < tasks.length := by
    by_contra hip
    rw [List.getElem?_eq_none (by omega)] at hmem
    cases hmem
  exact ⟨h2, by omega⟩

/-! Supporting lemmas about the node-vector construction. -/

lemma init_identity_nodes_getElem? (g : TaskGraph) (k : Nat) {nd : TaskNode}
    (h1 : g.nodes[k]? = some nd) :
    ∃ fp, g.init_identity_fingerprints.nodes[k]? =
      some { nd with id_fingerprint := fp } := by
  have hk : k < g.nodes.length := by
    by_contra hip
    rw [List.getElem?_eq_none (by omega)] at h1
    cases h1
  have hlen : (computeIdFps g.nodes).length = g.nodes.length :=
    accumFps_length _ _
  have hz := getElem?_zip_of g.nodes (computeIdFps g.nodes) k hk (by omega)
  have hg : g.nodes[k] = nd := by
    have := List.getElem?_eq_getElem hk
    rw [h1] at this
    exact ((Option.some.injEq _ _).mp this).symm
  refine ⟨(computeIdFps g.nodes)[k], ?_⟩
  simp only [TaskGraph.init_identity_fingerprints, List.getElem?_map, hz, hg]
  rfl

lemma init_identity_length (g : TaskGraph) :
    g.init_identity_fingerprints.nodes.length = g.nodes.length := by
  have hlen : (computeIdFps g.nodes).length = g.nodes.length :=
    accumFps_length _ _
  simp only [TaskGraph.init_identity_fingerprints, List.length_map,
    List.length_zip]
  omega

lemma update_state_length (g : TaskGraph) :
    g.update_state_fingerprints.2.nodes.length = g.nodes.length := by
  have hlen : (computeStateFps g.nodes).length = g.nodes.length :=
    accumFps_length _ _
  simp only [TaskGraph.update_state_fingerprints, List.length_map,
    List.length_zip]
  omega

lemma finalizeGraph_length (nodes : List TaskNode) :
    (finalizeGraph nodes).nodes.length = nodes.length := by
  unfold finalizeGraph
  rw [update_state_length, init_identity_length]

/-- The fingerprint passes keep each node's task, incoming and outgoing
lists. -/
lemma finalizeGraph_getElem? (nodes : List TaskNode) (k : Nat)
    {nd : TaskNode} (h1 : nodes[k]? = some nd) :
    ∃ nd', (finalizeGraph nodes).nodes[k]? = some nd' ∧
      nd'.task = nd.task ∧ nd'.incoming = nd.incoming ∧
      nd'.outgoing = nd.outgoing := by
  obtain ⟨fp, hfp⟩ := init_identity_nodes_getElem? (TaskGraph.mk nodes) k h1
  have hk : k < nodes.length := by
    by_contra hip
    rw [List.getElem?_eq_none (by omega)] at h1
    cases h1
  have hk2 : k < (TaskGraph.mk nodes).init_identity_fingerprints.nodes.length := by
    rw [init_identity_length]
    exact hk
  have hlen : (computeStateFps
      ((TaskGraph.mk nodes).init_identity_fingerprints.nodes)).length =
      (TaskGraph.mk nodes).init_identity_fingerprints.nodes.length :=
    accumFps_length _ _
  have hfp2 : ∃ fp2, (computeStateFps
      ((TaskGraph.mk nodes).init_identity_fingerprints.nodes))[k]? =
      some fp2 := ⟨_, List.getElem?_eq_getElem (by omega)⟩
  obtain ⟨fp2, hfp2⟩ := hfp2
  refine ⟨{ { nd with id_fingerprint := fp } with state_fingerprint := fp2 },
    ?_, rfl, rfl, rfl⟩
  show (finalizeGraph nodes).nodes[k]? = _
  unfold finalizeGraph
  exact update_state_nodes_getElem? _ k hfp hfp2

lemma buildNodes_length {resolve : TaskScope} {tasks : List Task}
    {edges : List BuildEdge} {order : List Nat} :
    ∀ {pgs : List Nat} {r : List TaskNode},
      buildNodes resolve tasks edges order pgs = Except.ok r →
      r.length = pgs.length := by
  intro pgs
  induction pgs with
  | nil =>
    intro r h
    have : ([] : List TaskNode) = r := by simpa [buildNodes] using h
    rw [← this]
    rfl
  | cons pg rest ih =>
    intro r h
    unfold buildNodes at h
    split at h
    · simp at h
    · next nd hnd =>
      split at h
      · simp at h
      · next tail htail =>
        have : nd :: tail = r := (Except.ok.injEq _ _).mp h
        rw [← this]
        simp [ih htail]

lemma buildNodes_getElem? {resolve : TaskScope} {tasks : List Task}
    {edges : List BuildEdge} {order : List Nat} :
    ∀ {pgs : List Nat} {r : List TaskNode},
      buildNodes resolve tasks edges order pgs = Except.ok r →
      ∀ (i : Nat) (pg : Nat), pgs[i]? = some pg →
        ∃ nd, r[i]? = some nd ∧
          buildNode resolve tasks edges order pg = Except.ok nd := by
  intro pgs
  induction pgs with
  | nil =>
    intro r h i pg hpg
    rw [List.getElem?_eq_none (by simp)] at hpg
    cases hpg
  | cons pg0 rest ih =>
    intro r h i pg hpg
    unfold buildNodes at h
    split at h
    · simp at h
    · next nd hnd =>
      split at h
      · simp at h
      · next tail htail =>
        have hr : nd :: tail = r := (Except.ok.injEq _ _).mp h
        cases i with
        | zero =>
          have : pg0 = pg := by simpa using hpg
          subst this
          exact ⟨nd, by rw [← hr]; simp, hnd⟩
        | succ i =>
          have hpg' : rest[i]? = some pg := by simpa using hpg
          obtain ⟨nd', hnd', hbuild⟩ := ih htail i pg hpg'
          exact ⟨nd', by rw [← hr]; simpa using hnd', hbuild⟩

lemma buildNode_ok {resolve : TaskScope} {tasks : List Task}
    {edges : List BuildEdge} {order : List Nat} {pg : Nat} {nd : TaskNode}
    (h : buildNode resolve tasks edges order pg = Except.ok nd) :
    ∃ jt, tasksMapGet tasks (weightOf tasks pg) = some jt ∧
      nd.task = jt.2 ∧ nd.outgoing = buildOutgoing edges order pg ∧
      buildIncoming resolve tasks edges order pg jt.2 jt.2.input_vars =
        Except.ok nd.incoming := by
  unfold buildNode at h
  split at h
  · simp at h
  · next j task hjt =>
    split at h
    · simp at h
    · next inc hinc =>
      have hnd : (⟨task, inc, buildOutgoing edges order pg, Fp.empty,
          Fp.empty⟩ : TaskNode) = nd := (Except.ok.injEq _ _).mp h
      refine ⟨(j, task), hjt, ?_, ?_, ?_⟩
      · rw [← hnd]
      · rw [← hnd]
      · rw [← hnd]
        exact hinc

lemma buildIncoming_mem {resolve : TaskScope} {tasks : List Task}
    {edges : List BuildEdge} {order : List Nat} {pg : Nat} {task : Task} :
    ∀ {ivs : List InputVariable} {l : List IncomingEdge},
      buildIncoming resolve tasks edges order pg task ivs = Except.ok l →
      ∀ edge ∈ l, ∃ iv ∈ ivs,
        incomingEdgeFor resolve tasks edges order pg task iv =
          Except.ok (some edge) := by
  intro ivs
  induction ivs with
  | nil =>
    intro l h edge he
    have : ([] : List IncomingEdge) = l := by simpa [buildIncoming] using h
    rw [← this] at he
    cases he
  | cons iv rest ih =>
    intro l h edge he
    unfold buildIncoming at h
    split at h
    · simp at h
    · next head hhead =>
      split at h
      · simp at h
      · next tail htail =>
        have hl : head.toList ++ tail = l := (Except.ok.injEq _ _).mp h
        rw [← hl] at he
        rcases List.mem_append.mp he with h1 | h1
        · cases head with
          | none => cases h1
          | some e0 =>
            have : edge = e0 := by simpa using h1
            subst this
            exact ⟨iv, List.mem_cons_self _ _, hhead⟩
        · obtain ⟨iv', hiv', hfor⟩ := ih htail edge h1
          exact ⟨iv', List.mem_cons_of_mem _ hiv', hfor⟩

lemma lookupIncoming_spec {tasks : List Task} {inEdges : List BuildEdge}
    {key : Variable × Option Variable} {srcPg : Nat}
    (h : lookupIncoming tasks inEdges key = some srcPg) :
    ∃ e ∈ inEdges, e.source = srcPg := by
  unfold lookupIncoming at h
  cases hf : inEdges.reverse.find? (fun e =>
      decide (((weightOf tasks e.source).1, e.output_var) = key)) with
  | none => rw [hf] at h; cases h
  | some e0 =>
    rw [hf] at h
    have hmem := List.mem_of_find?_eq_some hf
    rw [List.mem_reverse] at hmem
    have : e0.source = srcPg := by simpa using h
    exact ⟨e0, hmem, this⟩

/-- Every reconstructed incoming edge comes from a petgraph edge into the
node, with the sorted source index. -/
lemma incomingEdgeFor_source {resolve : TaskScope} {tasks : List Task}
    {edges : List BuildEdge} {order : List Nat} {pg : Nat} {task : Task}
    {iv : InputVariable} {edge : IncomingEdge}
    (h : incomingEdgeFor resolve tasks edges order pg task iv =
      Except.ok (some edge)) :
    ∃ srcPg, edge.source = order.indexOf srcPg ∧
      ∃ e ∈ edges, e.target = pg ∧ e.source = srcPg := by
  unfold incomingEdgeFor at h
  split at h
  · simp at h
  · next r hr =>
    split at h
    · simp at h
    · next srcPg hl =>
      obtain ⟨e0, he0, hsrc⟩ := lookupIncoming_spec hl
      have he0m := List.mem_filter.mp he0
      have htgt : e0.target = pg := of_decide_eq_true he0m.2
      refine ⟨srcPg, ?_, e0, he0m.1, htgt, hsrc⟩
      split at h
      · have := (Option.some.injEq _ _).mp ((Except.ok.injEq _ _).mp h)
        rw [← this]
      · next o hov =>
        split at h
        · simp at h
        · next jt hm =>
          split at h
          · simp at h
          · next outIdx hidx =>
            have := (Option.some.injEq _ _).mp ((Except.ok.injEq _ _).mp h)
            rw [← this]

lemma indexOf_getElem_of_nodup {l : List Nat} (hnd : l.Nodup) (i : Nat)
    (hi : i < l.length) : l.indexOf l[i] = i := by
  have hmem : l[i] ∈ l := List.getElem_mem hi
  have hj : l.indexOf l[i] < l.length := List.indexOf_lt_length.mpr hmem
  have hget : l.get ⟨l.indexOf l[i], hj⟩ = l[i] := List.indexOf_get hj
  have := (hnd.get_inj_iff (i := ⟨l.indexOf l[i], hj⟩)
    (j := ⟨i, hi⟩)).mp (by simpa using hget)
  simpa using congrArg Fin.val this

/-! Supporting lemmas for self-reference elision (C5). -/

lemma mem_tasks_of_entry {tasks : List Task} {entry : Nat × Task}
    (h : entry ∈ tasksEntries tasks) : entry.2 ∈ tasks := by
  have h1 := (List.mem_filter.mp h).1
  have h2 := List.mem_enum_iff_getElem?.mp h1
  exact List.getElem?_mem h2

lemma tasksEntries_unique {tasks : List Task} {p q : Nat × Task}
    (hp : p ∈ tasksEntries tasks) (hq : q ∈ tasksEntries tasks)
    (hsv : p.2.scopedVar = q.2.scopedVar) : p = q := by
  obtain ⟨hp1, hp2⟩ := List.mem_filter.mp hp
  obtain ⟨hq1, hq2⟩ := List.mem_filter.mp hq
  have hple := List.all_eq_true.mp hp2 q hq1
  have hqle := List.all_eq_true.mp hq2 p hp1
  have h1 : q.1 ≤ p.1 := by
    rcases Bool.or_eq_true_iff.mp hple with hc | hc
    · exact of_decide_eq_true hc
    · exact absurd hsv.symm (of_decide_eq_true hc)
  have h2 : p.1 ≤ q.1 := by
    rcases Bool.or_eq_true_iff.mp hqle with hc | hc
    · exact of_decide_eq_true hc
    · exact absurd hsv (of_decide_eq_true hc)
  have hidx : p.1 = q.1 := le_antisymm h2 h1
  have hp3 := List.mem_enum_iff_getElem?.mp hp1
  have hq3 := List.mem_enum_iff_getElem?.mp hq1
  rw [hidx] at hp3
  rw [hp3] at hq3
  exact Prod.ext_iff.mpr ⟨hidx, (Option.some.injEq _ _).mp hq3⟩

lemma tasksMapGet_self {tasks : List Task} {entry : Nat × Task}
    (h : entry ∈ tasksEntries tasks) :
    tasksMapGet tasks entry.2.scopedVar = some entry := by
  unfold tasksMapGet
  cases hf : (tasksEntries tasks).find?
      (fun p => decide (p.2.scopedVar = entry.2.scopedVar)) with
  | none =>
    exfalso
    have := List.find?_eq_none.mp hf entry h
    simp at this
  | some q =>
    have hqmem := List.mem_of_find?_eq_some hf
    have hq' := List.find?_some hf
    have hqsv : q.2.scopedVar = entry.2.scopedVar :=
      of_decide_eq_true (by simpa using hq')
    rw [tasksEntries_unique hqmem h hqsv]

/-- Every scoped variable of a task owns a surviving `tasks_map` entry. -/
lemma exists_entry_for (tasks : List Task) :
    ∀ (k i : Nat) (hi : i < tasks.length), tasks.length - i ≤ k →
      ∃ entry ∈ tasksEntries tasks,
        entry.2.scopedVar = tasks[i].scopedVar := by
  intro k
  induction k with
  | zero => intro i hi hk; omega
  | succ k ih =>
    intro i hi hk
    by_cases hin : (i, tasks[i]) ∈ tasksEntries tasks
    · exact ⟨(i, tasks[i]), hin, rfl⟩
    · have henum : (i, tasks[i]) ∈ tasks.enum := by
        rw [List.mem_enum_iff_getElem?]
        exact List.getElem?_eq_getElem hi
      have hall : ¬ (tasks.enum.all (fun q =>
          decide (q.1 ≤ i) ||
          decide (q.2.scopedVar ≠ tasks[i].scopedVar)) = true) := by
        intro hcontra
        exact hin (List.mem_filter.mpr ⟨henum, hcontra⟩)
      have hex : ∃ q ∈ tasks.enum, ¬ (decide (q.1 ≤ i) ||
          decide (q.2.scopedVar ≠ tasks[i].scopedVar)) = true := by
        by_contra hcon
        apply hall
        rw [List.all_eq_true]
        intro q hq
        by_contra hb
        exact hcon ⟨q, hq, hb⟩
      obtain ⟨q, hqmem, hq⟩ := hex
      rw [Bool.or_eq_true_iff] at hq
      push_neg at hq
      have hqi : i < q.1 := by
        have := hq.1
        by_contra hcon
        exact this (decide_eq_true (by omega))
      have hqsv : q.2.scopedVar = tasks[i].scopedVar := by
        have := hq.2
        by_contra hcon
        exact this (decide_eq_true hcon)
      have hqget := List.mem_enum_iff_getElem?.mp hqmem
      have hqlen : q.1 < tasks.length := by
        by_contra hcon
        rw [List.getElem?_eq_none (by omega)] at hqget
        cases hqget
      obtain ⟨entry, hent, hsv⟩ := ih q.1 hqlen (by omega)
      refine ⟨entry, hent, ?_⟩
      rw [hsv, ← hqsv]
      have : tasks[q.1] = q.2 := by
        have := List.getElem?_eq_getElem hqlen
        rw [hqget] at this
        exact ((Option.some.injEq _ _).mp this).symm
      rw [this]

lemma tasksMapGet_exists {tasks : List Task} {i : Nat}
    (hi : i < tasks.length) :
    ∃ entry ∈ tasksEntries tasks,
      tasksMapGet tasks tasks[i].scopedVar = some entry ∧
      entry.2.scopedVar = tasks[i].scopedVar := by
  obtain ⟨entry, hent, hsv⟩ :=
    exists_entry_for tasks (tasks.length - i) i hi (le_refl _)
  refine ⟨entry, hent, ?_, hsv⟩
  rw [← hsv]
  exact tasksMapGet_self hent

lemma topoLoop_nil :
    ∀ (fuel : Nat) (placed remaining : List Nat),
      remaining.length ≤ fuel →
      topoLoop [] fuel placed remaining = some remaining := by
  intro fuel
  induction fuel with
  | zero =>
    intro placed remaining h
    have : remaining = [] := List.eq_nil_of_length_eq_zero (by omega)
    subst this
    rfl
  | succ fuel ih =>
    intro placed remaining h
    cases remaining with
    | nil => rfl
    | cons v rest =>
      unfold topoLoop
      have hready : readyB [] placed v = true := by simp [readyB]
      rw [List.find?_cons_of_pos _ hready]
      show Option.map (fun order => v :: order)
        (topoLoop [] fuel (placed ++ [v]) ((v :: rest).erase v)) =
        some (v :: rest)
      rw [List.erase_cons_head,
        ih (placed ++ [v]) rest (by simpa using h)]
      rfl

lemma toposort_nil (n : Nat) :
    toposort n [] = some (List.range n) :=
  topoLoop_nil n [] (List.range n) (by simp)

lemma incomingEdgeFor_nil (resolve : TaskScope) (tasks : List Task)
    (order : List Nat) (pg : Nat) (task : Task) (iv : InputVariable)
    (r : Resolved) (hr : resolve iv.var task.scope = Except.ok r) :
    incomingEdgeFor resolve tasks [] order pg task iv = Except.ok none := by
  unfold incomingEdgeFor
  rw [hr]
  rfl

lemma buildIncoming_nil (resolve : TaskScope) (tasks : List Task)
    (order : List Nat) (pg : Nat) (task : Task) :
    ∀ (ivs : List InputVariable),
      (∀ iv ∈ ivs, ∃ r, resolve iv.var task.scope = Except.ok r) →
      buildIncoming resolve tasks [] order pg task ivs = Except.ok [] := by
  intro ivs
  induction ivs with
  | nil => intro _; rfl
  | cons iv rest ih =>
    intro h
    obtain ⟨r, hr⟩ := h iv (List.mem_cons_self _ _)
    have h1 := incomingEdgeFor_nil resolve tasks order pg task iv r hr
    have h2 := ih (fun iv' h' => h iv' (List.mem_cons_of_mem _ h'))
    unfold buildIncoming
    rw [h1, h2]
    rfl

lemma edgesForInputs_self (resolve : TaskScope) (tasks : List Task)
    (entry : Nat × Task) (hent : entry ∈ tasksEntries tasks) :
    ∀ (ivs : List InputVariable),
      (∀ iv ∈ ivs, ∃ r, resolve iv.var entry.2.scope = Except.ok r ∧
        r.var = entry.2.var ∧ r.scope = entry.2.scope) →
      edgesForInputs resolve tasks entry.1 entry.2.scope ivs =
        Except.ok [] := by
  intro ivs
  induction ivs with
  | nil => intro _; rfl
  | cons iv rest ih =>
    intro h
    obtain ⟨r, hr, hrv, hrs⟩ := h iv (List.mem_cons_self _ _)
    have hm : tasksMapGet tasks (r.var, r.scope) = some entry := by
      have hkey : (r.var, r.scope) = entry.2.scopedVar := by
        rw [hrv, hrs]
        rfl
      rw [hkey]
      exact tasksMapGet_self hent
    have hrec := ih (fun iv' h' => h iv' (List.mem_cons_of_mem _ h'))
    unfold edgesForInputs
    rw [hr]
    show (match tasksMapGet tasks (r.var, r.scope) with
      | none => Except.error (Err.internal "No variable with scope")
      | some (j, _) =>
        match edgesForInputs resolve tasks entry.1 entry.2.scope rest with
        | Except.error e => Except.error e
        | Except.ok tail =>
          if j ≠ entry.1 then
            Except.ok (⟨j, entry.1, r.output_var⟩ :: tail)
          else Except.ok tail) = Except.ok []
    rw [hm, hrec]
    simp

lemma buildEdgesAux_nil (resolve : TaskScope) (tasks : List Task) :
    ∀ (entries : List (Nat × Task)),
      (∀ entry ∈ entries, edgesForInputs resolve tasks entry.1
        entry.2.scope entry.2.input_vars = Except.ok []) →
      buildEdgesAux resolve tasks entries = Except.ok [] := by
  intro entries
  induction entries with
  | nil => intro _; rfl
  | cons entry rest ih =>
    intro h
    have h1 := h entry (List.mem_cons_self _ _)
    have h2 := ih (fun e' h' => h e' (List.mem_cons_of_mem _ h'))
    unfold buildEdgesAux
    rw [h1, h2]
    rfl

lemma buildNode_self (resolve : TaskScope) (tasks : List Task)
    (order : List Nat) (pg : Nat) (hpg : pg < tasks.length)
    (hres : ∀ t ∈ tasks, ∀ iv ∈ t.input_vars, ∃ r,
      resolve iv.var t.scope = Except.ok r ∧ r.var = t.var ∧
        r.scope = t.scope) :
    ∃ nd, buildNode resolve tasks [] order pg = Except.ok nd ∧
      nd.incoming = [] := by
  have hw : weightOf tasks pg = tasks[pg].scopedVar := by
    unfold weightOf
    rw [List.getD_eq_getElem?_getD, List.getElem?_eq_getElem hpg]
    rfl
  obtain ⟨entry, hent, hget, hsv⟩ := tasksMapGet_exists hpg
  have htaskmem : entry.2 ∈ tasks := mem_tasks_of_entry hent
  have hBI : buildIncoming resolve tasks [] order pg entry.2
      entry.2.input_vars = Except.ok [] :=
    buildIncoming_nil resolve tasks order pg entry.2 entry.2.input_vars
      (fun iv hiv => (hres entry.2 htaskmem iv hiv).elim
        (fun r hr => ⟨r, hr.1⟩))
  refine ⟨⟨entry.2, [], buildOutgoing [] order pg, Fp.empty, Fp.empty⟩,
    ?_, rfl⟩
  unfold buildNode
  rw [hw, hget]
  show (match buildIncoming resolve tasks [] order pg entry.2
      entry.2.input_vars with
    | Except.error e => Except.error e
    | Except.ok incoming =>
      Except.ok (⟨entry.2, incoming, buildOutgoing [] order pg, Fp.empty,
        Fp.empty⟩ : TaskNode)) = _
  rw [hBI]

lemma buildNodes_exists_nil (resolve : TaskScope) (tasks : List Task)
    (order : List Nat) :
    ∀ (pgs : List Nat),
      (∀ pg ∈ pgs, ∃ nd, buildNode resolve tasks [] order pg =
        Except.ok nd ∧ nd.incoming = []) →
      ∃ nodes, buildNodes resolve tasks [] order pgs = Except.ok nodes ∧
        nodes.length = pgs.length ∧ ∀ nd ∈ nodes, nd.incoming = [] := by
  intro pgs
  induction pgs with
  | nil => intro _; exact ⟨[], rfl, rfl, by simp⟩
  | cons pg rest ih =>
    intro h
    obtain ⟨nd, hnd, hinc⟩ := h pg (List.mem_cons_self _ _)
    obtain ⟨nodes, hnodes, hlen, hall⟩ :=
      ih (fun p hp => h p (List.mem_cons_of_mem _ hp))
    refine ⟨nd :: nodes, ?_, by simp [hlen], ?_⟩
    · unfold buildNodes
      rw [hnd, hnodes]
    · intro x hx
      rcases List.mem_cons.mp hx with h1 | h1
      · subst h1; exact hinc
      · exact hall x h1

/-! Supporting lemmas for the incoming-order contract (C3). -/

/-- A successful `buildIncoming` run is exactly the `filter_map` of the
edge reconstruction over the input variables, in order. -/
lemma buildIncoming_eq_filterMap {resolve : TaskScope} {tasks : List Task}
    {edges : List BuildEdge} {order : List Nat} {pg : Nat} {task : Task} :
    ∀ {ivs : List InputVariable} {l : List IncomingEdge},
      buildIncoming resolve tasks edges order pg task ivs = Except.ok l →
      l = ivs.filterMap (edgeSpecFn resolve tasks edges order pg task) := by
  intro ivs
  induction ivs with
  | nil =>
    intro l h
    have : ([] : List IncomingEdge) = l := by simpa [buildIncoming] using h
    rw [← this]
    rfl
  | cons iv rest ih =>
    intro l h
    unfold buildIncoming at h
    split at h
    · simp at h
    · next head hhead =>
      split at h
      · simp at h
      · next tail htail =>
        have hl : head.toList ++ tail = l := (Except.ok.injEq _ _).mp h
        have hspec : edgeSpecFn resolve tasks edges order pg task iv =
            head := by
          unfold edgeSpecFn
          rw [hhead]
          cases head <;> rfl
        rw [← hl, List.filterMap_cons, hspec, ih htail]
        cases head <;> rfl

/-- Characterization of a reconstructed edge carrying an output slot. -/
lemma incomingEdgeFor_slot {resolve : TaskScope} {tasks : List Task}
    {edges : List BuildEdge} {order : List Nat} {pg : Nat} {task : Task}
    {iv : InputVariable} {edge : IncomingEdge}
    (h : incomingEdgeFor resolve tasks edges order pg task iv =
      Except.ok (some edge)) (s : Nat) (hs : edge.output = some s) :
    ∃ srcPg o j input_task, edge.source = order.indexOf srcPg ∧
      (∃ e ∈ edges, e.target = pg ∧ e.source = srcPg) ∧
      tasksMapGet tasks (weightOf tasks srcPg) = some (j, input_task) ∧
      input_task.output_vars.indexOf? o = some s := by
  unfold incomingEdgeFor at h
  split at h
  · simp at h
  · next r hr =>
    split at h
    · simp at h
    · next srcPg hl =>
      obtain ⟨e0, he0, hsrc⟩ := lookupIncoming_spec hl
      have he0m := List.mem_filter.mp he0
      have htgt : e0.target = pg := of_decide_eq_true he0m.2
      split at h
      · exfalso
        have := (Option.some.injEq _ _).mp ((Except.ok.injEq _ _).mp h)
        rw [← this] at hs
        cases hs
      · next o hov =>
        split at h
        · simp at h
        · next j jt hm =>
          split at h
          · simp at h
          · next outIdx hidx =>
            have hedge := (Option.some.injEq _ _).mp
              ((Except.ok.injEq _ _).mp h)
            have hsrcf : edge.source = order.indexOf srcPg := by
              rw [← hedge]
            have houtf : edge.output = some outIdx := by
              rw [← hedge]
            rw [hs] at houtf
            have hout : outIdx = s :=
              ((Option.some.injEq _ _).mp houtf).symm
            subst hout
            exact ⟨srcPg, o, j, jt, hsrcf,
              ⟨e0, he0m.1, htgt, hsrc⟩, hm, hidx⟩

lemma incomingEdgeFor_error_internal {resolve : TaskScope}
    {tasks : List Task} {edges : List BuildEdge} {order : List Nat}
    {pg : Nat} {task : Task} {iv : InputVariable} {e2 : Err}
    (h : incomingEdgeFor resolve tasks edges order pg task iv =
      Except.error e2) : e2.kind = ErrKind.internalErr := by
  unfold incomingEdgeFor at h
  split at h
  · have : Err.internal "resolve_scope unwrap failed" = e2 :=
      (Except.error.injEq _ _).mp h
    rw [← this]
    rfl
  · next r hr =>
    split at h
    · simp at h
    · next srcPg hl =>
      split at h
      · simp at h
      · next o hov =>
        split at h
        · have : Err.internal "tasks_map unwrap failed" = e2 :=
            (Except.error.injEq _ _).mp h
          rw [← this]
          rfl
        · next jt hm =>
          split at h
          · have : Err.internal "Failed to find output variable" = e2 :=
              (Except.error.injEq _ _).mp h
            rw [← this]
            rfl
          · next outIdx hidx => simp at h

lemma buildIncoming_error_internal {resolve : TaskScope}
    {tasks : List Task} {edges : List BuildEdge} {order : List Nat}
    {pg : Nat} {task : Task} :
    ∀ {ivs : List InputVariable} {e2 : Err},
      buildIncoming resolve tasks edges order pg task ivs =
        Except.error e2 → e2.kind = ErrKind.internalErr := by
  intro ivs
  induction ivs with
  | nil => intro e2 h; simp [buildIncoming] at h
  | cons iv rest ih =>
    intro e2 h
    unfold buildIncoming at h
    split at h
    · next e' he' =>
      have : e' = e2 := (Except.error.injEq _ _).mp h
      rw [← this]
      exact incomingEdgeFor_error_internal he'
    · next head hhead =>
      split at h
      · next e' he' =>
        have : e' = e2 := (Except.error.injEq _ _).mp h
        rw [← this]
        exact ih he'
      · next tail htail => simp at h

lemma buildNode_error_internal {resolve : TaskScope} {tasks : List Task}
    {edges : List BuildEdge} {order : List Nat} {pg : Nat} {e2 : Err}
    (h : buildNode resolve tasks edges order pg = Except.error e2) :
    e2.kind = ErrKind.internalErr := by
  unfold buildNode at h
  split at h
  · have : Err.internal "tasks_map unwrap failed" = e2 :=
      (Except.error.injEq _ _).mp h
    rw [← this]
    rfl
  · next j task hjt =>
    split at h
    · next e' he' =>
      have : e' = e2 := (Except.error.injEq _ _).mp h
      rw [← this]
      exact buildIncoming_error_internal he'
    · next inc hinc => simp at h

lemma buildNodes_error_internal {resolve : TaskScope} {tasks : List Task}
    {edges : List BuildEdge} {order : List Nat} :
    ∀ {pgs : List Nat} {e2 : Err},
      buildNodes resolve tasks edges order pgs = Except.error e2 →
      e2.kind = ErrKind.internalErr := by
  intro pgs
  induction pgs with
  | nil => intro e2 h; simp [buildNodes] at h
  | cons pg rest ih =>
    intro e2 h
    unfold buildNodes at h
    split at h
    · next e' he' =>
      have : e' = e2 := (Except.error.injEq _ _).mp h
      rw [← this]
      exact buildNode_error_internal he'
    · next nd hnd =>
      split at h
      · next e' he' =>
        have : e' = e2 := (Except.error.injEq _ _).mp h
        rw [← this]
        exact ih he'
      · next tail htail => simp at h

lemma buildNodes_ok_all {resolve : TaskScope} {tasks : List Task}
    {edges : List BuildEdge} {order : List Nat} :
    ∀ {pgs : List Nat} {r : List TaskNode},
      buildNodes resolve tasks edges order pgs = Except.ok r →
      ∀ pg ∈ pgs, ∃ nd, buildNode resolve tasks edges order pg =
        Except.ok nd := by
  intro pgs
  induction pgs with
  | nil => intro r h pg hpg; cases hpg
  | cons pg0 rest ih =>
    intro r h pg hpg
    unfold buildNodes at h
    split at h
    · simp at h
    · next nd hnd =>
      split at h
      · simp at h
      · next tail htail =>
        rcases List.mem_cons.mp hpg with h1 | h1
        · subst h1
          exact ⟨nd, hnd⟩
        · exact ih htail pg h1

/-! Lemmas and theorems for C9 and C10. -/

lemma watchListOf_none_of_scale {l : List ScopedVar} {sv : ScopedVar}
    (hmem : sv ∈ l) (hscale : sv.1.ns = VariableNamespace.scale) :
    watchListOf l = none := by
  induction l with
  | nil => cases hmem
  | cons a t ih =>
    rcases List.mem_cons.mp hmem with h | h
    · subst h
      simp [watchListOf, Watch.tryFrom, hscale,
        WatchNamespace.tryFromNamespace, Except.toOption]
    · have ht := ih h
      cases ha : (Watch.tryFrom a).toOption with
      | none => simp [watchListOf, ha]
      | some w => simp [watchListOf, ha, ht]

lemma watchListOf_some_of_no_scale {l : List ScopedVar}
    (h : ∀ sv ∈ l, sv.1.ns ≠ VariableNamespace.scale) :
    ∃ ws, watchListOf l = some ws := by
  induction l with
  | nil => exact ⟨[], rfl⟩
  | cons a t ih =>
    obtain ⟨ws, hws⟩ := ih (fun sv hm => h sv (List.mem_cons_of_mem a hm))
    have ha := h a (List.mem_cons_self a t)
    have : ∃ w, (Watch.tryFrom a).toOption = some w := by
      cases hns : a.1.ns with
      | scale => exact absurd hns ha
      | signal =>
        exact ⟨⟨WatchNamespace.signal, a.1.name, a.2⟩, by
          simp [Watch.tryFrom, hns, WatchNamespace.tryFromNamespace,
            Except.toOption]⟩
      | data =>
        exact ⟨⟨WatchNamespace.data, a.1.name, a.2⟩, by
          simp [Watch.tryFrom, hns, WatchNamespace.tryFromNamespace,
            Except.toOption]⟩
    obtain ⟨w, hw⟩ := this
    exact ⟨w :: ws, by simp [watchListOf, hw, hws]⟩

/-- C10: converting a `CommPlan` to a `WatchPlan` panics (modelled: returns
`none`) whenever `server_to_client` or `client_to_server` contains a
Scale-namespace variable, because `WatchNamespace::try_from` only admits
Signal and Data and the result is unwrapped; for plans containing only
Signal and Data variables the conversion succeeds and returns each list
sorted (by the derived lexicographic order) as a permutation of the
converted entries. -/
theorem c10_watch_plan_scale_panics (p : CommPlan) :
    ((∃ sv ∈ p.server_to_client ++ p.client_to_server,
        sv.1.ns = VariableNamespace.scale) →
      WatchPlan.fromCommPlan p = none) ∧
    ((∀ sv ∈ p.server_to_client ++ p.client_to_server,
        sv.1.ns ≠ VariableNamespace.scale) →
      ∃ wp ws cs,
        WatchPlan.fromCommPlan p = some wp ∧
        watchListOf p.server_to_client = some ws ∧
        watchListOf p.client_to_server = some cs ∧
        wp.server_to_client.Perm (List.insertionSort Watch.le ws) ∧
        (List.insertionSort Watch.le ws).Perm ws ∧
        wp.client_to_server.Perm cs ∧
        wp.server_to_client.Sorted Watch.le ∧
        wp.client_to_server.Sorted Watch.le) := by
  constructor
  · rintro ⟨sv, hmem, hscale⟩
    rcases List.mem_append.mp hmem with h | h
    · have := watchListOf_none_of_scale h hscale
      simp [WatchPlan.fromCommPlan, this]
    · have := watchListOf_none_of_scale h hscale
      cases hs : watchListOf p.server_to_client with
      | none => simp [WatchPlan.fromCommPlan, hs]
      | some ws => simp [WatchPlan.fromCommPlan, hs, this]
  · intro h
    obtain ⟨ws, hws⟩ := watchListOf_some_of_no_scale
      (fun sv hm => h sv (List.mem_append_left _ hm))
    obtain ⟨cs, hcs⟩ := watchListOf_some_of_no_scale
      (fun sv hm => h sv (List.mem_append_right _ hm))
    refine ⟨⟨List.insertionSort Watch.le ws, List.insertionSort Watch.le cs⟩,
      ws, cs, ?_, hws, hcs, List.Perm.refl _, List.perm_insertionSort _ _,
      List.perm_insertionSort _ _, ?_, ?_⟩
    · simp [WatchPlan.fromCommPlan, hws, hcs]
    · exact List.sorted_insertionSort Watch.le ws
    · exact List.sorted_insertionSort Watch.le cs

theorem c10_watch_plan_scale_panics_witness :
    (WatchPlan.fromCommPlan ⟨[scaleScopedVar], []⟩ = none) ∧
    (∃ wp ws cs,
      WatchPlan.fromCommPlan ⟨[sigVarB, sigVarA], []⟩ = some wp ∧
      watchListOf [sigVarB, sigVarA] = some ws ∧
      watchListOf [] = some cs ∧
      wp.server_to_client.Perm (List.insertionSort Watch.le ws) ∧
      (List.insertionSort Watch.le ws).Perm ws ∧
      wp.client_to_server.Perm cs ∧
      wp.server_to_client.Sorted Watch.le ∧
      wp.client_to_server.Sorted Watch.le) := by
  constructor
  · exact (c10_watch_plan_scale_panics ⟨[scaleScopedVar], []⟩).1
      ⟨scaleScopedVar, by simp, rfl⟩
  · exact (c10_watch_plan_scale_panics ⟨[sigVarB, sigVarA], []⟩).2
      (by
        intro sv hm
        simp only [List.append_nil, List.mem_cons, List.not_mem_nil,
          or_false] at hm
        rcases hm with h | h <;> subst h <;> simp [sigVarB, sigVarA])

/-- C9 (code bug): for every `AggregateTransformSpec`,
`transform_columns` returns `TransformColumns::Unknown` when `datum_var` is
`None`, but the `Some(datum_var)` branch of the source is an unconditional
`todo!()` panic (modelled as `none`) — evaluated here at a concrete
aggregate spec and datum variable — so the function does not return a
`TransformColumns` value for any `Some` datum variable, contrary to the
claim. -/
theorem c9_transform_columns_todo_diverges :
    (∀ (s : AggregateTransformSpec) (us : List Nat) (ts : TaskScope)
        (vf : VlSelectionFields),
      s.transform_columns none us ts vf =
        some TransformColumns.unknownCols) ∧
    (∀ (s : AggregateTransformSpec) (dv : ScopedVar) (us : List Nat)
        (ts : TaskScope) (vf : VlSelectionFields),
      s.transform_columns (some dv) us ts vf = none) ∧
    (AggregateTransformSpec.transform_columns
        ⟨[], none, none, none, none, none, none⟩
        (some (⟨VariableNamespace.data, "x"⟩, [])) []
        (fun _ _ => Except.error (Err.internal "")) [] = none) :=
  ⟨fun _ _ _ _ => rfl, fun _ _ _ _ _ => rfl, rfl⟩

/-- C2: `TaskGraph::new` either returns a toposorted graph — every incoming
edge's source index strictly below its node's index — or fails; and when
the dependency graph contains a cycle it fails with an InternalError. -/
theorem c2_new_toposorted_or_cycle_error (resolve : TaskScope)
    (tasks : List Task) :
    (∀ g, TaskGraph.new resolve tasks = Except.ok g →
      ∀ (i : Nat) (nd : TaskNode), g.nodes[i]? = some nd →
        ∀ e ∈ nd.incoming, e.source < i) ∧
    (∀ edges, buildEdges resolve tasks = Except.ok edges →
      hasCycle edges →
      ∃ err, TaskGraph.new resolve tasks = Except.error err ∧
        err.kind = ErrKind.internalErr) := by
  constructor
  · intro g hok i nd hnd e he
    unfold TaskGraph.new at hok
    split at hok
    · simp at hok
    · next edges hEdges =>
      unfold newFromEdges at hok
      split at hok
      · simp at hok
      · next order horder =>
        unfold newFromOrder at hok
        split at hok
        · simp at hok
        · next nodes hnodes =>
          have hg : finalizeGraph nodes = g := (Except.ok.injEq _ _).mp hok
          have hi : i < g.nodes.length := by
            by_contra hip
            rw [List.getElem?_eq_none (by omega)] at hnd
            cases hnd
          have hlen1 : g.nodes.length = nodes.length := by
            rw [← hg, finalizeGraph_length]
          have hlen2 : nodes.length = order.length := buildNodes_length hnodes
          have hperm := toposort_perm horder
          have hnodup : order.Nodup :=
            hperm.nodup_iff.mpr (List.nodup_range _)
          have hio : i < order.length := by omega
          obtain ⟨nd0, hnd0, hbuild⟩ := buildNodes_getElem? hnodes i order[i]
            (List.getElem?_eq_getElem hio)
          obtain ⟨nd', hnd', _, hinc', _⟩ := finalizeGraph_getElem? nodes i hnd0
          rw [hg] at hnd'
          have hndeq : nd' = nd := (Option.some.injEq _ _).mp
            (hnd'.symm.trans hnd)
          obtain ⟨jt, hjt, _, _, hincB⟩ := buildNode_ok hbuild
          have he0 : e ∈ nd0.incoming := by
            rw [← hinc', hndeq]
            exact he
          obtain ⟨iv, _, hfor⟩ := buildIncoming_mem hincB e he0
          obtain ⟨srcPg, hsrcIdx, e1, he1, htgt1, hsrc1⟩ :=
            incomingEdgeFor_source hfor
          have hrange := buildEdges_range hEdges e1 he1
          have hord := toposort_ordering horder he1 hrange.1 hrange.2
          rw [hsrc1, htgt1, indexOf_getElem_of_nodup hnodup i hio] at hord
          rw [hsrcIdx]
          exact hord
  · intro edges hEdges hcyc
    have hrange := buildEdges_range hEdges
    have hnone := toposort_none_of_cycle (n := tasks.length)
      (fun e he => hrange e he) hcyc
    refine ⟨Err.internal "failed to sort dependency graph topologically",
      ?_, rfl⟩
    unfold TaskGraph.new
    rw [hEdges]
    show newFromEdges resolve tasks edges = _
    unfold newFromEdges
    rw [hnone]

theorem c2_new_toposorted_or_cycle_error_witness :
    ((⟨0, none⟩ : IncomingEdge).source < 1) ∧
    (∃ err, TaskGraph.new rootResolve c2CycleTasks = Except.error err ∧
      err.kind = ErrKind.internalErr) := by
  constructor
  · exact (c2_new_toposorted_or_cycle_error rootResolve c2ChainTasks).1
      c2Graph (by decide) 1 (c2Graph.nodes.getD 1 defaultTaskNode)
      (by decide) ⟨0, none⟩ (by decide)
  · apply (c2_new_toposorted_or_cycle_error rootResolve c2CycleTasks).2
      c2CycleEdges (by decide)
    refine ⟨0, Relation.TransGen.tail (b := 1)
      (Relation.TransGen.single ?_) ?_⟩
    · exact ⟨⟨0, 1, none⟩, by decide, rfl, rfl⟩
    · exact ⟨⟨1, 0, none⟩, by decide, rfl, rfl⟩

/-- C5: when every input of every task resolves to the task's own scoped
variable, `TaskGraph::new` succeeds (no cycle is reported) and no node has
an edge from itself — the would-be self-edges are dropped at edge-insertion
time, leaving every incoming list empty. -/
theorem c5_self_reference_elided (resolve : TaskScope) (tasks : List Task)
    (hres : ∀ t ∈ tasks, ∀ iv ∈ t.input_vars, ∃ r,
      resolve iv.var t.scope = Except.ok r ∧ r.var = t.var ∧
        r.scope = t.scope) :
    ∃ g, TaskGraph.new resolve tasks = Except.ok g ∧
      g.nodes.length = tasks.length ∧
      ∀ (i : Nat) (nd : TaskNode), g.nodes[i]? = some nd →
        nd.incoming = [] := by
  have hBE : buildEdges resolve tasks = Except.ok [] := by
    unfold buildEdges
    apply buildEdgesAux_nil
    intro entry hent
    apply edgesForInputs_self resolve tasks entry hent
    intro iv hiv
    exact hres entry.2 (mem_tasks_of_entry hent) iv hiv
  have htopo := toposort_nil tasks.length
  obtain ⟨nodes, hnodes, hlen, hall⟩ :=
    buildNodes_exists_nil resolve tasks (List.range tasks.length)
      (List.range tasks.length)
      (fun pg hpg =>
        buildNode_self resolve tasks (List.range tasks.length) pg
          (List.mem_range.mp hpg) hres)
  refine ⟨finalizeGraph nodes, ?_, ?_, ?_⟩
  · unfold TaskGraph.new
    rw [hBE]
    show newFromEdges resolve tasks [] = _
    unfold newFromEdges
    rw [htopo]
    show newFromOrder resolve tasks [] (List.range tasks.length) = _
    unfold newFromOrder
    rw [hnodes]
  · rw [finalizeGraph_length, hlen, List.length_range]
  · intro i nd hnd
    have hi : i < (finalizeGraph nodes).nodes.length := by
      by_contra hip
      rw [List.getElem?_eq_none (by omega)] at hnd
      cases hnd
    have hi2 : i < nodes.length := by
      rw [finalizeGraph_length] at hi
      exact hi
    obtain ⟨nd', hnd', _, hinc, _⟩ :=
      finalizeGraph_getElem? nodes i (List.getElem?_eq_getElem hi2)
    have hndeq : nd' = nd := (Option.some.injEq _ _).mp
      (hnd'.symm.trans hnd)
    rw [← hndeq, hinc]
    exact hall nodes[i] (List.getElem_mem hi2)

theorem c5_self_reference_elided_witness :
    ∃ g, TaskGraph.new rootResolve c5Tasks = Except.ok g ∧
      g.nodes.length = c5Tasks.length ∧
      ∀ (i : Nat) (nd : TaskNode), g.nodes[i]? = some nd →
        nd.incoming = [] :=
  c5_self_reference_elided rootResolve c5Tasks (by
    intro t ht iv hiv
    simp only [c5Tasks, List.mem_cons, List.not_mem_nil, or_false] at ht
    subst ht
    simp only [Task.input_vars, List.mem_cons, List.not_mem_nil,
      or_false] at hiv
    subst hiv
    exact ⟨⟨⟨VariableNamespace.data, "x"⟩, [], none⟩, rfl, rfl, rfl⟩)

/-- C3: in every graph returned by `TaskGraph::new`, each node's incoming
edge list is the in-order `filter_map` of its task's `input_vars()` through
the edge reconstruction, and every edge carrying an output slot points at a
parent node whose task declares the resolved output variable at exactly
that position (first occurrence); when a resolved output variable is not
found in the parent's `output_vars()`, `new` fails with an InternalError. -/
theorem c3_incoming_order_and_slots (resolve : TaskScope)
    (tasks : List Task) :
    (∀ g edges order, TaskGraph.new resolve tasks = Except.ok g →
      buildEdges resolve tasks = Except.ok edges →
      toposort tasks.length edges = some order →
      ∀ (i : Nat) (nd : TaskNode), g.nodes[i]? = some nd →
        ∃ pg, order[i]? = some pg ∧
          nd.incoming = nd.task.input_vars.filterMap
            (edgeSpecFn resolve tasks edges order pg nd.task) ∧
          (∀ e ∈ nd.incoming, ∀ s : Nat, e.output = some s →
            ∃ (pnd : TaskNode) (o : Variable),
              g.nodes[e.source]? = some pnd ∧
              pnd.task.output_vars.indexOf? o = some s)) ∧
    (∀ edges order, buildEdges resolve tasks = Except.ok edges →
      toposort tasks.length edges = some order →
      (∃ pg ∈ order, ∃ e2, buildNode resolve tasks edges order pg =
        Except.error e2) →
      ∃ err, TaskGraph.new resolve tasks = Except.error err ∧
        err.kind = ErrKind.internalErr) := by
  constructor
  · intro g edges order hok hEdges horder i nd hnd
    unfold TaskGraph.new at hok
    split at hok
    · simp at hok
    · next edges' hEdges' =>
      rw [hEdges'] at hEdges
      have hE : edges = edges' := ((Except.ok.injEq _ _).mp hEdges).symm
      rw [hE]
      unfold newFromEdges at hok
      split at hok
      · rw [hE] at horder
        simp at hok
      · next order' horder' =>
        rw [hE] at horder
        rw [horder'] at horder
        have hO : order = order' := ((Option.some.injEq _ _).mp horder).symm
        rw [hO]
        unfold newFromOrder at hok
        split at hok
        · simp at hok
        · next nodes hnodes =>
          have hg : finalizeGraph nodes = g := (Except.ok.injEq _ _).mp hok
          have hi : i < g.nodes.length := by
            by_contra hip
            rw [List.getElem?_eq_none (by omega)] at hnd
            cases hnd
          have hlen1 : g.nodes.length = nodes.length := by
            rw [← hg, finalizeGraph_length]
          have hlen2 : nodes.length = order'.length :=
            buildNodes_length hnodes
          have hperm := toposort_perm horder'
          have hio : i < order'.length := by omega
          obtain ⟨nd0, hnd0, hbuild⟩ := buildNodes_getElem? hnodes i order'[i]
            (List.getElem?_eq_getElem hio)
          obtain ⟨nd', hnd', htask', hinc', _⟩ :=
            finalizeGraph_getElem? nodes i hnd0
          rw [hg] at hnd'
          have hndeq : nd' = nd := (Option.some.injEq _ _).mp
            (hnd'.symm.trans hnd)
          obtain ⟨jt, hjt, htask0, _, hincB⟩ := buildNode_ok hbuild
          have hinceq : nd.incoming = nd0.incoming := by
            rw [← hndeq, hinc']
          have htaskeq : nd.task = nd0.task := by
            rw [← hndeq, htask']
          refine ⟨order'[i], List.getElem?_eq_getElem hio, ?_, ?_⟩
          · rw [hinceq, htaskeq, htask0]
            exact buildIncoming_eq_filterMap hincB
          · intro e he s hs
            rw [hinceq] at he
            obtain ⟨iv, _, hfor⟩ := buildIncoming_mem hincB e he
            obtain ⟨srcPg, o, j2, itask, hsrcIdx,
              ⟨e1, he1, _, hsrc1⟩, hmget, hidxo⟩ :=
              incomingEdgeFor_slot hfor s hs
            have hsrcn : srcPg < tasks.length := by
              have hb := (buildEdges_range hEdges' e1 he1).1
              rw [hsrc1] at hb
              exact hb
            have hsrcord : srcPg ∈ order' :=
              hperm.mem_iff.mpr (List.mem_range.mpr hsrcn)
            have hkl : order'.indexOf srcPg < order'.length :=
              List.indexOf_lt_length.mpr hsrcord
            have hordget : order'[order'.indexOf srcPg] = srcPg := by
              have := List.indexOf_get (a := srcPg) (l := order') hkl
              simpa using this
            obtain ⟨pnd0, hpnd0, hpbuild⟩ := buildNodes_getElem? hnodes
              (order'.indexOf srcPg) order'[order'.indexOf srcPg]
              (List.getElem?_eq_getElem hkl)
            rw [hordget] at hpbuild
            obtain ⟨pjt, hpjt, hptask, _, _⟩ := buildNode_ok hpbuild
            have hpeq : pjt = (j2, itask) := by
              rw [hpjt] at hmget
              exact (Option.some.injEq _ _).mp hmget
            obtain ⟨pnd, hpnd, hptask2, _, _⟩ :=
              finalizeGraph_getElem? nodes (order'.indexOf srcPg) hpnd0
            rw [hg] at hpnd
            refine ⟨pnd, o, ?_, ?_⟩
            · rw [hsrcIdx]
              exact hpnd
            · rw [hptask2, hptask, hpeq]
              exact hidxo
  · rintro edges order hEdges horder ⟨pg, hpgmem, e2, herr⟩
    cases hbn : buildNodes resolve tasks edges order order with
    | ok r =>
      exfalso
      obtain ⟨nd, hok⟩ := buildNodes_ok_all hbn pg hpgmem
      rw [herr] at hok
      cases hok
    | error e3 =>
      refine ⟨e3, ?_, buildNodes_error_internal hbn⟩
      unfold TaskGraph.new
      rw [hEdges]
      show newFromEdges resolve tasks edges = _
      unfold newFromEdges
      rw [horder]
      show newFromOrder resolve tasks edges order = _
      unfold newFromOrder
      rw [hbn]

theorem c3_incoming_order_and_slots_witness :
    (∃ pg, ([0, 1] : List Nat)[1]? = some pg ∧
      (c2Graph.nodes.getD 1 defaultTaskNode).incoming =
        (c2Graph.nodes.getD 1 defaultTaskNode).task.input_vars.filterMap
          (edgeSpecFn rootResolve c2ChainTasks c3Edges [0, 1] pg
            (c2Graph.nodes.getD 1 defaultTaskNode).task) ∧
      (∀ e ∈ (c2Graph.nodes.getD 1 defaultTaskNode).incoming,
        ∀ s : Nat, e.output = some s →
        ∃ (pnd : TaskNode) (o : Variable),
          c2Graph.nodes[e.source]? = some pnd ∧
          pnd.task.output_vars.indexOf? o = some s)) ∧
    (∃ err, TaskGraph.new c3BadResolve c3BadTasks = Except.error err ∧
      err.kind = ErrKind.internalErr) := by
  constructor
  · exact (c3_incoming_order_and_slots rootResolve c2ChainTasks).1
      c2Graph c3Edges [0, 1] (by decide) (by decide) (by decide) 1
      (c2Graph.nodes.getD 1 defaultTaskNode) (by decide)
  · exact (c3_incoming_order_and_slots c3BadResolve c3BadTasks).2
      c3BadEdges [0, 1] (by decide) (by decide)
      ⟨1, by decide, Err.internal "Failed to find output variable",
        by decide⟩

/-- C1: for a graph satisfying the build invariants (toposorted incoming
edges, consistent state fingerprints), `update_value(n, v)` on a Value node
succeeds and returns exactly the nodes whose stored state fingerprint
differs from its value before the call (each node expanded with one
`NodeValueIndex` per output variable); every returned index is `n` itself
or a transitive descendant of `n`; and an immediately repeated
`update_value(n, v)` with the same value returns the empty list. -/
theorem c1_update_value_minimality (g : TaskGraph) (n : Nat) (v : TaskValue)
    (node : TaskNode) (vp : TaskValueData)
    (hw : g.wellOrdered = true)
    (hc : g.stateConsistent = true)
    (hn : g.nodes[n]? = some node)
    (hkind : node.task.task_kind = TaskKind.value vp) :
    ∃ l g',
      g.update_value n v = (Except.ok l, g') ∧
      (∀ i : Nat, (⟨i, none⟩ : NodeValueIndex) ∈ l ↔
        ∃ nd nd', g.nodes[i]? = some nd ∧ g'.nodes[i]? = some nd' ∧
          nd'.state_fingerprint ≠ nd.state_fingerprint) ∧
      (∀ x ∈ l, ∃ nd nd', g.nodes[x.node_index]? = some nd ∧
        g'.nodes[x.node_index]? = some nd' ∧
        nd'.state_fingerprint ≠ nd.state_fingerprint) ∧
      (∀ x ∈ l, x.node_index = n ∨ descendant g.nodes n x.node_index) ∧
      g'.update_value n v = (Except.ok [], g') := by
  obtain ⟨⟨nvar, nscope, nkind⟩, ninc, nout, nid, nst⟩ := node
  simp only at hkind
  subst hkind
  have hlt : n < g.nodes.length := by
    by_contra hip
    rw [List.getElem?_eq_none (by omega)] at hn
    cases hn
  set nd0 : TaskNode :=
    ⟨⟨nvar, nscope, TaskKind.value v⟩, ninc, nout, nid, nst⟩ with hnd0
  set g1 : TaskGraph := ⟨g.nodes.set n nd0⟩ with hg1
  set ch : List Nat := g1.update_state_fingerprints.1 with hch
  set g2 : TaskGraph := g1.update_state_fingerprints.2 with hg2
  set l : List NodeValueIndex := ch.flatMap (fun i =>
    ⟨i, none⟩ :: (List.range
        ((g2.nodes.getD i defaultTaskNode).task.output_vars.length)).map
      (fun j => ⟨i, some j⟩)) with hl
  have hg1len : g1.nodes.length = g.nodes.length := by
    rw [hg1]
    exact List.length_set g.nodes n nd0
  have hg1n : g1.nodes[n]? = some nd0 := by
    rw [hg1]
    exact List.getElem?_set_self hlt
  have hg1other : ∀ i : Nat, i ≠ n → g1.nodes[i]? = g.nodes[i]? := by
    intro i hi
    rw [hg1]
    exact List.getElem?_set_ne (by omega)
  have hstored : ∀ (i : Nat) (m : TaskNode), g1.nodes[i]? = some m →
      ∃ m0, g.nodes[i]? = some m0 ∧
        m0.state_fingerprint = m.state_fingerprint := by
    intro i m hm
    by_cases hin : i = n
    · subst hin
      rw [hg1n] at hm
      have : nd0 = m := (Option.some.injEq _ _).mp hm
      subst this
      exact ⟨_, hn, rfl⟩
    · rw [hg1other i hin] at hm
      exact ⟨m, hm, rfl⟩
  have hshape : g.update_value n v = (Except.ok l, g2) := by
    unfold TaskGraph.update_value
    rw [hn]
  have hxidx : ∀ x ∈ l, x.node_index ∈ ch := by
    intro x hx
    rw [hl] at hx
    rcases List.mem_flatMap.mp hx with ⟨a, ha, hxa⟩
    rcases List.mem_cons.mp hxa with hx1 | hx1
    · subst hx1
      exact ha
    · rcases List.mem_map.mp hx1 with ⟨j, _, hj⟩
      rw [← hj]
      exact ha
  have hchar : ∀ i ∈ ch, ∃ nd nd', g.nodes[i]? = some nd ∧
      g2.nodes[i]? = some nd' ∧
      nd'.state_fingerprint ≠ nd.state_fingerprint := by
    intro i hi
    rcases (mem_update_state_changed g1 i).mp hi with ⟨m, fp, hm, hfp, hne⟩
    obtain ⟨m0, hm0, hst⟩ := hstored i m hm
    refine ⟨m0, { m with state_fingerprint := fp },
      hm0, ?_, by simpa using fun hcontra => hne (by rw [← hst, hcontra])⟩
    rw [hg2]
    exact update_state_nodes_getElem? g1 i hm hfp
  refine ⟨l, g2, hshape, ?_, ?_, ?_, ?_⟩
  · intro i
    constructor
    · intro hmem
      exact hchar i (hxidx _ hmem)
    · rintro ⟨nd, nd', h0, h', hne⟩
      have hi : i < g.nodes.length := by
        by_contra hip
        rw [List.getElem?_eq_none (by omega)] at h0
        cases h0
      have hfp : (computeStateFps g1.nodes)[i]? =
          some nd'.state_fingerprint := by
        have := update_state_fingerprints_getElem? g1 i (by omega)
        rw [← hg2, h'] at this
        exact this.symm
      have hmem : i ∈ ch := by
        rw [hch]
        apply (mem_update_state_changed g1 i).mpr
        by_cases hin : i = n
        · subst hin
          have hnd : (⟨⟨nvar, nscope, TaskKind.value vp⟩, ninc, nout, nid,
              nst⟩ : TaskNode) = nd :=
            (Option.some.injEq _ _).mp (hn.symm.trans h0)
          have hnd' : nd.state_fingerprint = nst := by rw [← hnd]
          refine ⟨nd0, nd'.state_fingerprint, hg1n, hfp, ?_⟩
          rw [show nd0.state_fingerprint = nst from rfl, ← hnd']
          exact fun hcontra => hne hcontra.symm
        · refine ⟨nd, nd'.state_fingerprint, ?_, hfp, ?_⟩
          · rw [hg1other i hin]
            exact h0
          · exact fun hcontra => hne hcontra.symm
      rw [hl]
      apply List.mem_flatMap.mpr
      exact ⟨i, hmem, List.mem_cons_self _ _⟩
  · intro x hx
    exact hchar x.node_index (hxidx x hx)
  · intro x hx
    have hmem := hxidx x hx
    rcases (mem_update_state_changed g1 x.node_index).mp hmem with
      ⟨m, fp, hm, hfp, hne⟩
    by_contra hcon
    push_neg at hcon
    obtain ⟨hin, hdesc⟩ := hcon
    have hunch := stateFps_unchanged_off_descendants g n nd0 hw
      x.node_index hin hdesc
    have hmg : g1.nodes[x.node_index]? = g.nodes[x.node_index]? :=
      hg1other _ hin
    rw [hmg] at hm
    have hcons := stateConsistent_spec hc
    have hcast := congrArg (fun ll : List Fp => ll[x.node_index]?) hcons
    simp only [List.getElem?_map, hm] at hcast
    have hfps : (computeStateFps g1.nodes)[x.node_index]? =
        some m.state_fingerprint := by
      rw [show g1.nodes = g.nodes.set n nd0 from rfl, hunch, ← hcast]
      rfl
    rw [hfps] at hfp
    exact hne ((Option.some.injEq _ _).mp hfp)
  · have hg2cons : g2.stateConsistent = true := by
      rw [hg2]
      exact stateConsistent_after g1
    have hg2len : g2.nodes.length = g.nodes.length := by
      rw [hg2]
      have hshp := update_state_nodes_shape g1
      have := (List.forall₂_iff_get.mp hshp).1
      omega
    have hfpn : ∃ fpn, (computeStateFps g1.nodes)[n]? = some fpn := by
      have hlenf : (computeStateFps g1.nodes).length = g1.nodes.length :=
        accumFps_length _ _
      exact ⟨_, List.getElem?_eq_getElem (by omega)⟩
    obtain ⟨fpn, hfpn⟩ := hfpn
    have hg2n : g2.nodes[n]? =
        some { nd0 with state_fingerprint := fpn } := by
      rw [hg2]
      exact update_state_nodes_getElem? g1 n hg1n hfpn
    unfold TaskGraph.update_value
    rw [hg2n]
    have hset : g2.nodes.set n
        ({ nd0 with state_fingerprint := fpn } : TaskNode) = g2.nodes :=
      set_eq_self_of_getElem? hg2n
    show (Except.ok ((TaskGraph.mk (g2.nodes.set n
        { nd0 with state_fingerprint := fpn })).update_state_fingerprints.1.flatMap _),
      (TaskGraph.mk (g2.nodes.set n
        { nd0 with state_fingerprint := fpn })).update_state_fingerprints.2) =
      (Except.ok [], g2)
    rw [hset, show (TaskGraph.mk g2.nodes) = g2 from rfl,
      update_state_of_consistent g2 hg2cons]
    rfl

theorem c1_update_value_minimality_witness :
    ∃ l g',
      c1Graph.update_value 0 (TaskValueData.scalar [5]) =
        (Except.ok l, g') ∧
      (∀ i : Nat, (⟨i, none⟩ : NodeValueIndex) ∈ l ↔
        ∃ nd nd', c1Graph.nodes[i]? = some nd ∧ g'.nodes[i]? = some nd' ∧
          nd'.state_fingerprint ≠ nd.state_fingerprint) ∧
      (∀ x ∈ l, ∃ nd nd', c1Graph.nodes[x.node_index]? = some nd ∧
        g'.nodes[x.node_index]? = some nd' ∧
        nd'.state_fingerprint ≠ nd.state_fingerprint) ∧
      (∀ x ∈ l, x.node_index = 0 ∨ descendant c1Graph.nodes 0 x.node_index) ∧
      g'.update_value 0 (TaskValueData.scalar [5]) = (Except.ok [], g') :=
  c1_update_value_minimality c1Graph 0 (TaskValueData.scalar [5])
    (c1Graph.nodes.getD 0 defaultTaskNode) (TaskValueData.scalar [1])
    (by decide) (by decide) (by decide) (by decide)

/-! Theorems for C8 and C4. -/

/-- C8: for every built task graph and every index `i ≥ nodes.length`, the
accessors `node`, `parent_indices`, `parent_nodes`, `child_indices` and
`child_nodes` fail with an InternalError; `update_value` fails with an
InternalError when the index is out of range or when the node is not a
Value task, and in every such failure the returned graph is the input
graph unchanged. -/
theorem c8_accessors_internal_error (g : TaskGraph) (i j : Nat)
    (v : TaskValue) (hi : g.nodes.length ≤ i) :
    (∃ e, g.node i = Except.error e ∧ e.kind = ErrKind.internalErr) ∧
    (∃ e, g.parent_indices i = Except.error e ∧
      e.kind = ErrKind.internalErr) ∧
    (∃ e, g.parent_nodes i = Except.error e ∧
      e.kind = ErrKind.internalErr) ∧
    (∃ e, g.child_indices i = Except.error e ∧
      e.kind = ErrKind.internalErr) ∧
    (∃ e, g.child_nodes i = Except.error e ∧
      e.kind = ErrKind.internalErr) ∧
    (∃ e, g.update_value i v = (Except.error e, g) ∧
      e.kind = ErrKind.internalErr) ∧
    (∀ n, g.nodes[j]? = some n →
      (∀ tv, n.task.task_kind ≠ TaskKind.value tv) →
      ∃ e, g.update_value j v = (Except.error e, g) ∧
        e.kind = ErrKind.internalErr) := by
  have hnone : g.nodes[i]? = none := List.getElem?_eq_none hi
  refine ⟨⟨Err.internal s!"Node index {i} out of bounds", ?_, rfl⟩,
    ⟨Err.internal s!"Node index {i} out of bounds", ?_, rfl⟩,
    ⟨Err.internal s!"Node index {i} out of bounds", ?_, rfl⟩,
    ⟨Err.internal s!"Node index {i} out of bounds", ?_, rfl⟩,
    ⟨Err.internal s!"Node index {i} out of bounds", ?_, rfl⟩,
    ⟨Err.internal "Missing node", ?_, rfl⟩, ?_⟩
  · simp [TaskGraph.node, hnone]
  · simp [TaskGraph.parent_indices, hnone]
  · simp [TaskGraph.parent_nodes, hnone]
  · simp [TaskGraph.child_indices, hnone]
  · simp [TaskGraph.child_nodes, hnone]
  · simp [TaskGraph.update_value, hnone]
  · intro n hjn hnv
    refine ⟨Err.internal "Task with index {} is not a Value", ?_, rfl⟩
    cases hkind : n.task.task_kind with
    | value tv => exact absurd hkind (hnv tv)
    | dataUrl d => simp [TaskGraph.update_value, hjn, hkind]
    | dataValues d => simp [TaskGraph.update_value, hjn, hkind]
    | dataSource d => simp [TaskGraph.update_value, hjn, hkind]

theorem c8_accessors_internal_error_witness :
    ((∃ e, c8Graph.node 5 = Except.error e ∧
        e.kind = ErrKind.internalErr) ∧
      (∃ e, c8Graph.parent_indices 5 = Except.error e ∧
        e.kind = ErrKind.internalErr) ∧
      (∃ e, c8Graph.parent_nodes 5 = Except.error e ∧
        e.kind = ErrKind.internalErr) ∧
      (∃ e, c8Graph.child_indices 5 = Except.error e ∧
        e.kind = ErrKind.internalErr) ∧
      (∃ e, c8Graph.child_nodes 5 = Except.error e ∧
        e.kind = ErrKind.internalErr) ∧
      (∃ e, c8Graph.update_value 5 (TaskValueData.scalar []) =
        (Except.error e, c8Graph) ∧ e.kind = ErrKind.internalErr) ∧
      (∀ n, c8Graph.nodes[0]? = some n →
        (∀ tv, n.task.task_kind ≠ TaskKind.value tv) →
        ∃ e, c8Graph.update_value 0 (TaskValueData.scalar []) =
          (Except.error e, c8Graph) ∧ e.kind = ErrKind.internalErr)) :=
  c8_accessors_internal_error c8Graph 5 0 (TaskValueData.scalar [])
    (by decide)

/-- C4: for a Value node, the identity fingerprint depends only on the
task's variable, scope and scalar-vs-table tag: replacing the payload of a
Value node (keeping its tag) leaves `init_identity_fingerprints` unchanged
at that node, while `update_state_fingerprints` stores a different state
fingerprint there whenever the serialized payloads differ. -/
theorem c4_value_fingerprints (nodes : List TaskNode) (k : Nat)
    (node : TaskNode) (v v' : TaskValueData)
    (hk : nodes[k]? = some node)
    (hkind : node.task.task_kind = TaskKind.value v)
    (htag : v.kindTag = v'.kindTag) :
    ((TaskGraph.init_identity_fingerprints
        ⟨nodes.set k { node with task :=
          { node.task with task_kind := TaskKind.value v' } }⟩).nodes[k]?.map
      (fun n => n.id_fingerprint)) =
    ((TaskGraph.init_identity_fingerprints ⟨nodes⟩).nodes[k]?.map
      (fun n => n.id_fingerprint)) ∧
    (v ≠ v' →
      ((TaskGraph.update_state_fingerprints
          ⟨nodes.set k { node with task :=
            { node.task with task_kind := TaskKind.value v' } }⟩).2.nodes[k]?.map
        (fun n => n.state_fingerprint)) ≠
      ((TaskGraph.update_state_fingerprints ⟨nodes⟩).2.nodes[k]?.map
        (fun n => n.state_fingerprint))) := by
  have hk' : k < nodes.length := by
    by_contra hlt
    rw [List.getElem?_eq_none (by omega)] at hk
    cases hk
  set node' : TaskNode :=
    { node with task := { node.task with task_kind := TaskKind.value v' } }
    with hnode'
  set nodes' := nodes.set k node' with hnodes'
  have hlen' : nodes'.length = nodes.length := by
    simp [hnodes']
  have hget : nodes[k] = node := by
    have := List.getElem?_eq_getElem hk'
    rw [hk] at this
    exact (Option.some.injEq _ _).mp this.symm
  have hget' : nodes'[k] = node' := by
    have h2 := List.getElem?_set_self (l := nodes) (i := k) (a := node') hk'
    have h3 := List.getElem?_eq_getElem (l := nodes') (n := k) (by omega)
    rw [h2] at h3
    exact (Option.some.injEq _ _).mp h3.symm
  have htake : nodes'.take k = nodes.take k := set_take nodes k node'
  constructor
  · rw [init_identity_fingerprints_getElem? ⟨nodes'⟩ k (by simpa using by omega),
      init_identity_fingerprints_getElem? ⟨nodes⟩ k hk']
    show (computeIdFps nodes')[k]? = (computeIdFps nodes)[k]?
    rw [show computeIdFps = accumFps idFpOf from rfl,
      accumFps_getElem? idFpOf nodes' k (by omega),
      accumFps_getElem? idFpOf nodes k hk', hget, hget', htake]
    have h1 : idFpOf (accumFps idFpOf (nodes.take k)) node' =
        ((Fp.empty.hvar node.task.var).hscope node.task.scope).hstr
          v'.kindTag := by
      simp [idFpOf, hnode']
    have h2 : idFpOf (accumFps idFpOf (nodes.take k)) node =
        ((Fp.empty.hvar node.task.var).hscope node.task.scope).hstr
          v.kindTag := by
      simp [idFpOf, hkind]
    rw [h1, h2, htag]
  · intro hne
    rw [update_state_fingerprints_getElem? ⟨nodes'⟩ k (by simpa using by omega),
      update_state_fingerprints_getElem? ⟨nodes⟩ k hk']
    show (computeStateFps nodes')[k]? ≠ (computeStateFps nodes)[k]?
    rw [show computeStateFps = accumFps stateFpOf from rfl,
      accumFps_getElem? stateFpOf nodes' k (by omega),
      accumFps_getElem? stateFpOf nodes k hk', hget, hget']
    have h1 : stateFpOf (accumFps stateFpOf (nodes'.take k)) node' =
        Fp.empty.htask node'.task := by
      simp [stateFpOf, hnode']
    have h2 : stateFpOf (accumFps stateFpOf (nodes.take k)) node =
        Fp.empty.htask node.task := by
      simp [stateFpOf, hkind]
    rw [h1, h2]
    intro hcontra
    have heq := (Option.some.injEq _ _).mp hcontra
    have htaskEq : node'.task = node.task := by
      injection heq
    have : TaskKind.value v' = TaskKind.value v := by
      have := congrArg Task.task_kind htaskEq
      simpa [hnode', hkind] using this
    exact hne (by injection this with h; exact h.symm)

theorem c4_value_fingerprints_witness :
    (((TaskGraph.init_identity_fingerprints ⟨[c4Node].set 0 { c4Node with task := { c4Node.task with task_kind := TaskKind.value (TaskValueData.scalar [2]) } }⟩).nodes[0]?.map
      (fun n => n.id_fingerprint)) =
    ((TaskGraph.init_identity_fingerprints ⟨[c4Node]⟩).nodes[0]?.map
      (fun n => n.id_fingerprint)) ∧
    (TaskValueData.scalar [1] ≠ TaskValueData.scalar [2] →
      ((TaskGraph.update_state_fingerprints ⟨[c4Node].set 0 { c4Node with task := { c4Node.task with task_kind := TaskKind.value (TaskValueData.scalar [2]) } }⟩).2.nodes[0]?.map
        (fun n => n.state_fingerprint)) ≠
      ((TaskGraph.update_state_fingerprints ⟨[c4Node]⟩).2.nodes[0]?.map
        (fun n => n.state_fingerprint)))) :=
  c4_value_fingerprints [c4Node] 0 c4Node (TaskValueData.scalar [1])
    (TaskValueData.scalar [2]) rfl rfl rfl

end VegaFusion
